import Mathlib

/-!
Verification of the lets-encrypt-preview ACME client core against its
natural-language specification.

The development shallowly embeds the relevant Python modules:
  * `letsencrypt/auth_handler.py` — the authorization handler, path planner
    (`gen_challenge_path`, `_find_smart_path`, `_find_dumb_path`,
    `mutually_exclusive`, `is_preferred`), polling and cleanup;
  * `letsencrypt/account.py` — account persistence and email validation;
  * `letsencrypt/client.py` — `Client.obtain_certificate`.

Challenge variants are modelled as an atomic enumeration (the Python code
uses a closed set of six challenge classes; `isinstance` tests against a
concrete variant class become equality of tags).  Exceptions are modelled
with `Except` over an explicit error type; the Python `except
errors.AuthorizationError` clause catches exactly the `authErr`
constructor.  The network and the two authenticators are oracles: a
structure of functions threaded through an arbitrary world type `W`, so the
theorems quantify over every environment behaviour expressible this way.
Machine-level effects (actual sockets, `time.sleep`) carry no data and are
dropped; `min_sleep` is kept as a parameter because its default value is
part of the specification.
-/

/-- The six ACME challenge variants known to the client
(`acme.challenges`).  `DVSNI`, `SimpleHTTP` and `DNS` are DV challenges;
`RecoveryToken`, `RecoveryContact` and `ProofOfPossession` are continuity
challenges. -/
inductive ChallType where
  | DVSNI
  | SimpleHTTP
  | DNS
  | RecoveryToken
  | RecoveryContact
  | ProofOfPossession
deriving DecidableEq, Repr

/-- Membership of the `DVChallenge` capability family. -/
def ChallType.isDV : ChallType → Bool
  | .DVSNI => true
  | .SimpleHTTP => true
  | .DNS => true
  | _ => false

/-- Membership of the `ContinuityChallenge` capability family. -/
def ChallType.isCont : ChallType → Bool
  | .RecoveryToken => true
  | .RecoveryContact => true
  | .ProofOfPossession => true
  | _ => false

/-- ACME status constants (`acme.messages.Status`). -/
inductive Status where
  | pending
  | processing
  | valid
  | invalid
  | revoked
  | unknown
deriving DecidableEq, Repr

/-- Embeds `acme.messages.ChallengeBody`: a challenge echoed by the server,
carrying its URI, status and the challenge itself.  The variant payload is
collapsed into `token`; it only serves to distinguish instances. -/
structure ChallengeBody where
  uri : String
  status : Status
  chall : ChallType
  token : String
deriving DecidableEq, Repr

/-- Embeds `letsencrypt.achallenges.AnnotatedChallenge`: a `ChallengeBody` paired
with its domain and, for `DVSNI`/`SimpleHTTP`, the account key. -/
structure Achall where
  challb : ChallengeBody
  domain : String
  key : Option String
deriving DecidableEq, Repr

/-- Embeds `acme.messages.Authorization` (the authorization body). -/
structure Authorization where
  identifier : String
  challenges : List ChallengeBody
  combinations : List (List Nat)
  status : Status
deriving DecidableEq, Repr

/-- Embeds `acme.messages.AuthorizationResource`. -/
structure AuthzrResource where
  body : Authorization
  uri : String
  new_cert_uri : String
deriving DecidableEq, Repr

/-- Python exceptions relevant to the embedded code.  `authErr` is
`letsencrypt.errors.AuthorizationError` (the class caught by
`_solve_challenges`); `clientErr` is `LetsEncryptClientError`; `otherErr`
covers exceptions of any other class (`IndexError`, `KeyError`,
`AssertionError`, ...), which no handler in the embedded code catches. -/
inductive PyErr where
  | authErr (msg : String)
  | clientErr (msg : String)
  | otherErr (msg : String)
deriving DecidableEq, Repr

/-- Equality of `Except` results is decidable when it is on both sides
(used to evaluate the embedding at concrete inputs). -/
instance {ε α : Type} [DecidableEq ε] [DecidableEq α] :
    DecidableEq (Except ε α) := fun a b =>
  match a, b with
  | .error e1, .error e2 =>
      if h : e1 = e2 then .isTrue (by rw [h]) else .isFalse (by
        intro hc
        exact h (Except.error.inj hc))
  | .ok v1, .ok v2 =>
      if h : v1 = v2 then .isTrue (by rw [h]) else .isFalse (by
        intro hc
        exact h (Except.ok.inj hc))
  | .error _, .ok _ => .isFalse (by intro hc; exact Except.noConfusion hc)
  | .ok _, .error _ => .isFalse (by intro hc; exact Except.noConfusion hc)

/-- Association-list update with Python `dict` semantics:
`m[k] = v` replaces the binding if the key is present, otherwise appends a
new binding. -/
def updateAssoc {α β : Type} [DecidableEq α] : List (α × β) → α → β → List (α × β)
  | [], k, v => [(k, v)]
  | (k', v') :: rest, k, v =>
      if k' = k then (k, v) :: rest else (k', v') :: updateAssoc rest k v

/-- Association-list lookup (Python `m[k]` / `m.get(k)`). -/
def lookupAssoc {α β : Type} [DecidableEq α] : List (α × β) → α → Option β
  | [], _ => none
  | (k', v') :: rest, k => if k' = k then some v' else lookupAssoc rest k

/-! ## Path planner (`auth_handler.py`, lines 361-479) -/

/-- Inner loop of `mutually_exclusive` over one exclusive group: scans the
group left to right, keeping presence flags for both challenges, and
reports `true` as soon as both are present and (when `different` is set)
the two are of different variants — the point where the Python code
`return False`s. -/
def scan_group (t1 t2 : ChallType) (different : Bool) :
    List ChallType → Bool → Bool → Bool
  | [], _, _ => false
  | c :: rest, p1, p2 =>
      let p1' := p1 || (t1 == c)
      let p2' := p2 || (t2 == c)
      if p1' && p2' && (!different || !(t1 == t2)) then true
      else scan_group t1 t2 different rest p1' p2'

/-- Embeds `mutually_exclusive(obj1, obj2, groups, different)`: returns `true`
when the two challenges may coexist (the Python function returns `True` in
exactly that case, despite its name). -/
def mutually_exclusive (t1 t2 : ChallType) (groups : List (List ChallType))
    (different : Bool) : Bool :=
  !(groups.any fun g => scan_group t1 t2 different g false false)

/-- Embeds `letsencrypt.constants.EXCLUSIVE_CHALLENGES`.

Modelled from the spec: `constants.py` is not among the provided sources;
§4.3 of the spec says exclusive groups are "a configured constant of the
core" and gives the single configured group "DVSNI ↔ SimpleHTTP" (§3). -/
def EXCLUSIVE_CHALLENGES : List (List ChallType) :=
  [[ChallType.DVSNI, ChallType.SimpleHTTP]]

/-- Embeds `is_preferred(offered_challb, satisfied, exclusive_groups)`. -/
def is_preferred (offered : ChallengeBody) (satisfied : List ChallengeBody)
    (groups : List (List ChallType)) : Bool :=
  satisfied.all fun challb =>
    mutually_exclusive offered.chall challb.chall groups true

/-- Python `enumerate`, with an explicit start index. -/
def enum_from {α : Type} : Nat → List α → List (Nat × α)
  | _, [] => []
  | n, a :: as_ => (n, a) :: enum_from (n + 1) as_

/-- Inner loop of `_find_dumb_path`: for one preferred variant, walk the
offered challenges appending every index whose challenge matches the
variant and is not mutually exclusive with an already-satisfied one. -/
def dumb_inner (p : ChallType) (groups : List (List ChallType)) :
    List (Nat × ChallengeBody) → List Nat → List ChallengeBody →
    List Nat × List ChallengeBody
  | [], path, sat => (path, sat)
  | (i, cb) :: rest, path, sat =>
      if cb.chall == p && is_preferred cb sat groups then
        dumb_inner p groups rest (path ++ [i]) (sat ++ [cb])
      else
        dumb_inner p groups rest path sat

/-- Outer loop of `_find_dumb_path` over the preference list.  `satisfied`
is a Python `set` in the source; it is modelled as a list — `is_preferred`
only quantifies over its members, so duplicates are irrelevant. -/
def dumb_outer (groups : List (List ChallType))
    (pairs : List (Nat × ChallengeBody)) :
    List ChallType → List Nat → List ChallengeBody →
    List Nat × List ChallengeBody
  | [], path, sat => (path, sat)
  | p :: rest, path, sat =>
      let out := dumb_inner p groups pairs path sat
      dumb_outer groups pairs rest out.1 out.2

/-- Embeds `_find_dumb_path(challbs, preferences)`: the initial
`assert len(preferences) == len(set(preferences))` becomes an
`AssertionError` result on duplicate preferences. -/
def find_dumb_path (challbs : List ChallengeBody) (prefs : List ChallType)
    (groups : List (List ChallType)) : Except PyErr (List Nat) :=
  if prefs.Nodup then
    .ok (dumb_outer groups (enum_from 0 challbs) prefs [] []).1
  else
    .error (.otherErr "AssertionError")

/-- Loop of `_find_smart_path` building `chall_cost` (a dict mapping each
preference to its 0-based enumeration index; later duplicates overwrite)
and `max_cost` (starting at 1 and accumulating every index). -/
def smart_cost_loop : List ChallType → Nat → List (ChallType × Nat) → Nat →
    List (ChallType × Nat) × Nat
  | [], _, m, mc => (m, mc)
  | c :: rest, i, m, mc => smart_cost_loop rest (i + 1) (updateAssoc m c i) (mc + i)

/-- Embeds `chall_cost` and `max_cost` of `_find_smart_path`. -/
def smart_costs (prefs : List ChallType) : List (ChallType × Nat) × Nat :=
  smart_cost_loop prefs 0 [] 1

/-- The `combo_total` accumulation of `_find_smart_path`:
`chall_cost.get(challbs[i].chall.__class__, max_cost)` summed over the
combination.  `challbs[challenge_index]` has no bounds check in the
source; an out-of-range index is a Python `IndexError`, modelled as
`none`. -/
def combo_cost (costMap : List (ChallType × Nat)) (maxCost : Nat)
    (challbs : List ChallengeBody) : List Nat → Option Nat
  | [] => some 0
  | i :: rest =>
      match challbs[i]? with
      | none => none
      | some cb =>
          match combo_cost costMap maxCost challbs rest with
          | none => none
          | some t => some ((lookupAssoc costMap cb.chall).getD maxCost + t)

/-- The selection loop of `_find_smart_path`: keeps `(best_combo,
best_combo_cost)`, updating on strict improvement.  `none` propagates an
`IndexError` raised while computing a combination's cost. -/
def smart_fold (costMap : List (ChallType × Nat)) (maxCost : Nat)
    (challbs : List ChallengeBody) :
    List (List Nat) → List Nat → Nat → Option (List Nat × Nat)
  | [], best, bc => some (best, bc)
  | c :: rest, best, bc =>
      match combo_cost costMap maxCost challbs c with
      | none => none
      | some t =>
          if t < bc then smart_fold costMap maxCost challbs rest c t
          else smart_fold costMap maxCost challbs rest best bc

/-- Message of the `AuthorizationError` raised by `_find_smart_path`. -/
def smartFailMsg : String :=
  "Client does not support any combination of challenges that will satisfy the CA."

/-- Embeds `_find_smart_path(challbs, preferences, combinations)`. -/
def find_smart_path (challbs : List ChallengeBody) (prefs : List ChallType)
    (combos : List (List Nat)) : Except PyErr (List Nat) :=
  let cm := smart_costs prefs
  match smart_fold cm.1 cm.2 challbs combos [] cm.2 with
  | none => .error (.otherErr "IndexError")
  | some (best, _) =>
      if best.isEmpty then .error (.authErr smartFailMsg) else .ok best

/-- Embeds `gen_challenge_path(challbs, preferences, combinations)`: smart path
when the server supplied combinations, dumb path otherwise. -/
def gen_challenge_path (challbs : List ChallengeBody) (prefs : List ChallType)
    (combos : List (List Nat)) : Except PyErr (List Nat) :=
  if combos.isEmpty then find_dumb_path challbs prefs EXCLUSIVE_CHALLENGES
  else find_smart_path challbs prefs combos

/-! Specification-level cost functions used to state planner theorems. -/

/-- The 0-based rank of a variant in the preference list (first occurrence). -/
def rank_of : List ChallType → ChallType → Option Nat
  | [], _ => none
  | c :: rest, t =>
      if c = t then some 0 else (rank_of rest t).map (· + 1)

/-- The spec's `max_cost = sum(ranks) + 1`. -/
def spec_max_cost (prefs : List ChallType) : Nat :=
  (List.range prefs.length).sum + 1

/-- The spec's per-challenge cost: the preference rank, or `max_cost` for
a variant outside the preference list. -/
def spec_chall_cost (prefs : List ChallType) (cb : ChallengeBody) : Nat :=
  (rank_of prefs cb.chall).getD (spec_max_cost prefs)

/-- The spec's combination cost (in-bounds combinations only; an
out-of-bounds index contributes 0 here and is excluded by hypothesis). -/
def spec_combo_cost (prefs : List ChallType) (challbs : List ChallengeBody)
    (combo : List Nat) : Nat :=
  (combo.map (fun i =>
    match challbs[i]? with
    | some cb => spec_chall_cost prefs cb
    | none => 0)).sum

/-- Running minimum of combination costs, seeded with `max_cost`. -/
def run_min (costf : List Nat → Nat) (bc : Nat) (combos : List (List Nat)) : Nat :=
  combos.foldl (fun a c => min a (costf c)) bc

/-! ## Authorization handler (`auth_handler.py`, class `AuthHandler`) -/

/-- The environment the handler runs against: the `Network` port and the
two authenticators, as oracle functions over an arbitrary world `W`.
`perform` may raise (its result is an `Except`); a `none` response models
a falsy ("no response yet") authenticator answer. -/
structure Env (W : Type) where
  requestDomainChallenges : W → String → Option String → W × AuthzrResource
  contGetChallPref : W → String → List ChallType
  dvGetChallPref : W → String → List ChallType
  contPerform : W → List Achall → W × Except PyErr (List (Option String))
  dvPerform : W → List Achall → W × Except PyErr (List (Option String))
  contCleanup : W → List Achall → W
  dvCleanup : W → List Achall → W
  answerChallenge : W → ChallengeBody → String → W
  poll : W → AuthzrResource → W × AuthzrResource

/-- The handler's mutable state: `self.authzr` (domain-keyed), `self.dv_c`
and `self.cont_c`. -/
structure HState where
  authzr : List (String × AuthzrResource)
  dv_c : List Achall
  cont_c : List Achall
deriving DecidableEq, Repr

/-- The empty state established by `AuthHandler.__init__`. -/
def hstate0 : HState := ⟨[], [], []⟩

/-- Python's `for x in lst: lst.remove(x)` on a single list object: the
iterator index advances while the list shrinks underneath it.  Step `k`
reads `lst[k]` and erases its first occurrence, then moves to `k+1`.  The
fuel argument (instantiated with the initial length) only makes the
recursion structural; the loop always stops within that many steps since
`k` grows and the length never does. -/
def py_self_remove_aux {α : Type} [DecidableEq α] : Nat → List α → Nat → List α
  | 0, l, _ => l
  | fuel + 1, l, k =>
      if h : k < l.length then
        py_self_remove_aux fuel (l.erase (l.get ⟨k, h⟩)) (k + 1)
      else l

/-- Embeds `for achall in dv_c: self.dv_c.remove(achall)` where `dv_c` *is*
`self.dv_c` (the aliasing in `_cleanup_challenges` when called with no
argument). -/
def py_self_remove {α : Type} [DecidableEq α] (l : List α) : List α :=
  py_self_remove_aux l.length l 0

/-- Embeds `for x in sub: lst.remove(x)` where `sub` is a fresh list (the
non-aliased removal in `_cleanup_challenges(achall_list)`). -/
def remove_all {α : Type} [DecidableEq α] (l sub : List α) : List α :=
  sub.foldl (fun acc a => acc.erase a) l

/-- Embeds `_cleanup_challenges()` (no argument): clean up *all* outstanding
achalls.  The authenticator `cleanup` receives the full lists, but the
removal loop iterates over the very lists it is erasing from. -/
def cleanup_challenges_all {W : Type} (e : Env W) (w : W) (st : HState) :
    W × HState :=
  let dvl := st.dv_c
  let contl := st.cont_c
  let step1 : W × HState :=
    if dvl.isEmpty then (w, st)
    else (e.dvCleanup w dvl, { st with dv_c := py_self_remove st.dv_c })
  let w1 := step1.1
  let st1 := step1.2
  if contl.isEmpty then (w1, st1)
  else (e.contCleanup w1 contl, { st1 with cont_c := py_self_remove st1.cont_c })

/-- Embeds `_cleanup_challenges(achall_list)` with an explicit list: partition by
capability family, invoke the authenticators' `cleanup`, and remove each
cleaned achall from the handler's lists. -/
def cleanup_challenges_some {W : Type} (e : Env W) (w : W) (st : HState)
    (lst : List Achall) : W × HState :=
  let dvl := lst.filter fun a => a.challb.chall.isDV
  let contl := lst.filter fun a => a.challb.chall.isCont
  let step1 : W × HState :=
    if dvl.isEmpty then (w, st)
    else (e.dvCleanup w dvl, { st with dv_c := remove_all st.dv_c dvl })
  let w1 := step1.1
  let st1 := step1.2
  if contl.isEmpty then (w1, st1)
  else (e.contCleanup w1 contl, { st1 with cont_c := remove_all st1.cont_c contl })

/-- Embeds `_solve_challenges()`: ask the authenticators for responses to the
outstanding challenges.  Only `errors.AuthorizationError` is caught (and
triggers `_cleanup_challenges()` before the re-raise); any other exception
propagates without cleanup.  The two `assert len(...)` checks surface as
an `AssertionError`. -/
def solve_challenges {W : Type} (e : Env W) (w : W) (st : HState) :
    W × HState × Except PyErr (List (Option String) × List (Option String)) :=
  let contStep : W × Except PyErr (List (Option String)) :=
    if st.cont_c.isEmpty then (w, .ok []) else e.contPerform w st.cont_c
  match contStep with
  | (w1, .error (.authErr m)) =>
      let c := cleanup_challenges_all e w1 st
      (c.1, c.2, .error (.authErr m))
  | (w1, .error err) => (w1, st, .error err)
  | (w1, .ok cont_resp) =>
      let dvStep : W × Except PyErr (List (Option String)) :=
        if st.dv_c.isEmpty then (w1, .ok []) else e.dvPerform w1 st.dv_c
      match dvStep with
      | (w2, .error (.authErr m)) =>
          let c := cleanup_challenges_all e w2 st
          (c.1, c.2, .error (.authErr m))
      | (w2, .error err) => (w2, st, .error err)
      | (w2, .ok dv_resp) =>
          if cont_resp.length == st.cont_c.length
              && dv_resp.length == st.dv_c.length then
            (w2, st, .ok (cont_resp, dv_resp))
          else (w2, st, .error (.otherErr "AssertionError"))

/-- Embeds `_send_responses(achalls, resps, chall_update)`: answer every truthy
response, collecting the active achalls and indexing them by domain in
`chall_update`.  `itertools.izip` stops at the shorter list. -/
def send_responses {W : Type} (e : Env W) :
    W → List Achall → List (Option String) → List (String × List Achall) →
    W × List (String × List Achall) × List Achall
  | w, [], _, cu => (w, cu, [])
  | w, _, [], cu => (w, cu, [])
  | w, a :: as_, r :: rs, cu =>
      match r with
      | none => send_responses e w as_ rs cu
      | some resp =>
          let w1 := e.answerChallenge w a.challb resp
          let cu1 :=
            match lookupAssoc cu a.domain with
            | some l => updateAssoc cu a.domain (l ++ [a])
            | none => updateAssoc cu a.domain [a]
          let out := send_responses e w1 as_ rs cu1
          (out.1, out.2.1, a :: out.2.2)

/-- Embeds `_get_chall_status(authzr, achall)`: status of the first challenge in
the authorization whose variant matches the achall's variant. -/
def get_chall_status (ar : AuthzrResource) (achall : Achall) :
    Except PyErr Status :=
  match ar.body.challenges.find? (fun cb => cb.chall == achall.challb.chall) with
  | some cb => .ok cb.status
  | none => .error (.authErr "Target challenge not found in authorization resource")

/-- The partition loop at the end of `_handle_check`: split the achalls
into completed (`valid`) and failed (`invalid`); undecided statuses fall
through.  A missing variant raises out of the loop. -/
def partition_status (ar : AuthzrResource) :
    List Achall → Except PyErr (List Achall × List Achall)
  | [] => .ok ([], [])
  | a :: rest =>
      match get_chall_status ar a with
      | .error err => .error err
      | .ok s =>
          match partition_status ar rest with
          | .error err => .error err
          | .ok (c, f) =>
              if s == .valid then .ok (a :: c, f)
              else if s == .invalid then .ok (c, a :: f)
              else .ok (c, f)

/-- Embeds `_handle_check(domain, achalls)`: poll the domain's authorization; if
its body is `valid` every achall is completed, otherwise partition by
per-challenge status. -/
def handle_check {W : Type} (e : Env W) (w : W) (st : HState) (domain : String)
    (achalls : List Achall) :
    W × HState × Except PyErr (List Achall × List Achall) :=
  match lookupAssoc st.authzr domain with
  | none => (w, st, .error (.otherErr "KeyError"))
  | some ar =>
      let p := e.poll w ar
      let st1 := { st with authzr := updateAssoc st.authzr domain p.2 }
      if p.2.body.status == .valid then (p.1, st1, .ok (achalls, []))
      else (p.1, st1, partition_status p.2 achalls)

/-- One round's inner `for domain in dom_to_check` loop of
`_poll_challenges`: accumulates completed domains; on a failed challenge
with `best_effort` unset, raises `AuthorizationError`. -/
def poll_round {W : Type} (e : Env W) (be : Bool) :
    List String → W → HState → List (String × List Achall) → List String →
    W × HState × List (String × List Achall) × List String × Option PyErr
  | [], w, st, cu, comps => (w, st, cu, comps, none)
  | d :: rest, w, st, cu, comps =>
      match lookupAssoc cu d with
      | none => (w, st, cu, comps, some (.otherErr "KeyError"))
      | some achs =>
          match handle_check e w st d achs with
          | (w1, st1, .error err) => (w1, st1, cu, comps, some err)
          | (w1, st1, .ok (comp, failed)) =>
              if comp.length == achs.length then
                poll_round e be rest w1 st1 cu (comps ++ [d])
              else if failed.isEmpty then
                poll_round e be rest w1 st1
                  (updateAssoc cu d (remove_all achs comp)) comps
              else if be then
                poll_round e be rest w1 st1 cu (comps ++ [d])
              else
                (w1, st1, cu, comps,
                  some (.authErr ("Failed Authorization procedure for " ++ d)))

/-- The `while dom_to_check and rounds < max_rounds` loop of
`_poll_challenges`.  The fuel argument only makes the recursion
structural; `poll_loop_fuel_irrelevant` below shows any fuel of at least
`max_rounds - rounds` gives the same result.  The returned `Nat` is the
number of completed polling rounds. -/
def poll_loop {W : Type} (e : Env W) (be : Bool) (mr : Nat) :
    Nat → List String → Nat → W → HState → List (String × List Achall) →
    W × HState × Nat × Except PyErr Unit
  | fuel, doms, rounds, w, st, cu =>
      if doms.isEmpty || !(rounds < mr) then (w, st, rounds, .ok ())
      else
        match fuel with
        | 0 => (w, st, rounds, .ok ())
        | fuel' + 1 =>
            match poll_round e be doms w st cu [] with
            | (w1, st1, _, _, some err) => (w1, st1, rounds, .error err)
            | (w1, st1, cu1, comps, none) =>
                poll_loop e be mr fuel'
                  (doms.filter fun d => !(comps.contains d))
                  (rounds + 1) w1 st1 cu1

/-- Embeds `_poll_challenges(chall_update, best_effort, min_sleep, max_rounds)`:
poll until every domain's outstanding achalls are decided or `max_rounds`
elapses.  `min_sleep` only feeds `time.sleep` and carries no data.  The
third component of the result is the number of completed rounds. -/
def poll_challenges {W : Type} (e : Env W) (w : W) (st : HState)
    (cu : List (String × List Achall)) (be : Bool)
    (min_sleep max_rounds : Nat) :
    W × HState × Nat × Except PyErr Unit :=
  poll_loop e be max_rounds max_rounds (cu.map Prod.fst) 0 w st cu

/-- Embeds `_poll_challenges` at its default parameters `min_sleep=3`,
`max_rounds=15` — the way `_respond` invokes it. -/
def poll_challenges_default {W : Type} (e : Env W) (w : W) (st : HState)
    (cu : List (String × List Achall)) (be : Bool) :
    W × HState × Nat × Except PyErr Unit :=
  poll_challenges e w st cu be 3 15

/-- Embeds `_respond(cont_resp, dv_resp, best_effort)`: send the responses (DV
first, as in the source), poll, and — in a `finally` block — clean up the
active achalls before propagating any polling exception. -/
def respond {W : Type} (e : Env W) (w : W) (st : HState)
    (cont_resp dv_resp : List (Option String)) (be : Bool) :
    W × HState × Except PyErr Unit :=
  let s1 := send_responses e w st.dv_c dv_resp []
  let s2 := send_responses e s1.1 st.cont_c cont_resp s1.2.1
  let active := s1.2.2 ++ s2.2.2
  let p := poll_challenges_default e s2.1 st s2.2.1 be
  let c := cleanup_challenges_some e p.1 p.2.1 active
  (c.1, c.2, p.2.2.2)

/-- Embeds `challb_to_achall(challb, key, domain)`: `DVSNI` and `SimpleHTTP`
achalls carry the account key. -/
def challb_to_achall (cb : ChallengeBody) (key : String) (domain : String) :
    Achall :=
  { challb := cb, domain := domain
    key := match cb.chall with
           | .DVSNI => some key
           | .SimpleHTTP => some key
           | _ => none }

/-- The loop of `_challenge_factory`: index the domain's challenges by the
planned path (no bounds check in the source — `IndexError` on an
out-of-range index) and partition the achalls by capability family. -/
def factory_loop (key : String) (domain : String)
    (challbs : List ChallengeBody) :
    List Nat → Except PyErr (List Achall × List Achall)
  | [] => .ok ([], [])
  | i :: rest =>
      match challbs[i]? with
      | none => .error (.otherErr "IndexError")
      | some cb =>
          match factory_loop key domain challbs rest with
          | .error err => .error err
          | .ok (cont, dv) =>
              let ach := challb_to_achall cb key domain
              if cb.chall.isCont then .ok (ach :: cont, dv)
              else if cb.chall.isDV then .ok (cont, ach :: dv)
              else .ok (cont, dv)

/-- Embeds `_challenge_factory(domain, path)`. -/
def challenge_factory (key : String) (st : HState) (domain : String)
    (path : List Nat) : Except PyErr (List Achall × List Achall) :=
  match lookupAssoc st.authzr domain with
  | none => .error (.otherErr "KeyError")
  | some ar => factory_loop key domain ar.body.challenges path

/-- Embeds `_choose_challenges(domains)`: plan every domain and extend `dv_c` and
`cont_c`.  An exception part-way leaves the extensions of earlier domains
in place, as in the source. -/
def choose_challenges {W : Type} (e : Env W) (w : W) (key : String) :
    List String → HState → HState × Except PyErr Unit
  | [], st => (st, .ok ())
  | d :: rest, st =>
      match lookupAssoc st.authzr d with
      | none => (st, .error (.otherErr "KeyError"))
      | some ar =>
          let prefs := e.contGetChallPref w d ++ e.dvGetChallPref w d
          match gen_challenge_path ar.body.challenges prefs
              ar.body.combinations with
          | .error err => (st, .error err)
          | .ok path =>
              match challenge_factory key st d path with
              | .error err => (st, .error err)
              | .ok (contl, dvl) =>
                  choose_challenges e w key rest
                    { st with dv_c := st.dv_c ++ dvl
                              cont_c := st.cont_c ++ contl }

/-- Embeds `verify_authzr_complete()`: raise `AuthorizationError("Incomplete
authorizations")` unless every authorization's status is `valid` or
`invalid`. -/
def verify_authzr_complete : List (String × AuthzrResource) → Except PyErr Unit
  | [] => .ok ()
  | (_, ar) :: rest =>
      if ar.body.status ≠ Status.valid ∧ ar.body.status ≠ Status.invalid then
        .error (.authErr "Incomplete authorizations")
      else verify_authzr_complete rest

/-- The `for domain in domains:` loop opening `get_authorizations`:
request an authorization for every domain and store it in `self.authzr`
(which is *not* cleared beforehand). -/
def populate_authzrs {W : Type} (e : Env W) (uri : Option String) :
    List String → W → List (String × AuthzrResource) →
    W × List (String × AuthzrResource)
  | [], w, m => (w, m)
  | d :: rest, w, m =>
      let r := e.requestDomainChallenges w d uri
      populate_authzrs e uri rest r.1 (updateAssoc m d r.2)

/-- The tail of `get_authorizations` once the challenge loop has drained:
`verify_authzr_complete` then return the `valid` authorizations only. -/
def finish_auth {W : Type} (w : W) (st : HState) :
    W × HState × Except PyErr (Option (List AuthzrResource)) :=
  match verify_authzr_complete st.authzr with
  | .error err => (w, st, .error err)
  | .ok () =>
      (w, st, .ok (some ((st.authzr.map Prod.snd).filter
        fun ar => ar.body.status == Status.valid)))

/-- The `while self.dv_c or self.cont_c:` loop of `get_authorizations`.
`fuel` bounds the number of iterations of this outer loop (the Python loop
may run forever against an authenticator that keeps returning falsy
responses); `.ok none` reports fuel exhaustion, i.e. divergence. -/
def auth_loop {W : Type} (e : Env W) (be : Bool) :
    Nat → W → HState → W × HState × Except PyErr (Option (List AuthzrResource))
  | fuel, w, st =>
      if st.dv_c.isEmpty && st.cont_c.isEmpty then finish_auth w st
      else
        match fuel with
        | 0 => (w, st, .ok none)
        | fuel' + 1 =>
            match solve_challenges e w st with
            | (w1, st1, .error err) => (w1, st1, .error err)
            | (w1, st1, .ok (cont_resp, dv_resp)) =>
                match respond e w1 st1 cont_resp dv_resp be with
                | (w2, st2, .error err) => (w2, st2, .error err)
                | (w2, st2, .ok ()) => auth_loop e be fuel' w2 st2

/-- Embeds `AuthHandler.get_authorizations(domains, best_effort)`.  `key` and
`uri` stand for `self.account.key` and `self.account.new_authzr_uri`. -/
def get_authorizations {W : Type} (e : Env W) (fuel : Nat) (w : W)
    (st : HState) (key : String) (uri : Option String)
    (domains : List String) (best_effort : Bool) :
    W × HState × Except PyErr (Option (List AuthzrResource)) :=
  let p := populate_authzrs e uri domains w st.authzr
  let st1 := { st with authzr := p.2 }
  match choose_challenges e p.1 key domains st1 with
  | (st2, .error err) => (p.1, st2, .error err)
  | (st2, .ok ()) => auth_loop e best_effort fuel p.1 st2

/-! ## Account store (`account.py`) -/

/-- Embeds `letsencrypt.le_util.Key`: a private-key handle, `(file, pem)`. -/
structure Key where
  file : String
  pem : String
deriving DecidableEq, Repr

/-- A minimal JSON universe for the persisted `Registration` body. -/
inductive Json where
  | str : String → Json
  | arr : List Json → Json
  | obj : List (String × Json) → Json

/-- Embeds `acme.messages.Registration` (the registration body).

Modelled from the spec: `acme/messages.py` is not among the provided
sources (only its tests are).  §3 of the spec gives the fields `key`
(public JWK, collapsed to a string here), `contact` (ordered sequence of
URIs), `recovery_token` and `agreement`. -/
structure Registration where
  key : String
  contact : List String
  recovery_token : String
  agreement : String
deriving DecidableEq, Repr

/-- Embeds `Registration.to_json`.

Modelled from the spec: §6.3 and the wire object used in
`acme/messages_test.py` (`{key, contact, recoveryToken, agreement}`). -/
def Registration.to_json (r : Registration) : Json :=
  .obj [("key", .str r.key), ("contact", .arr (r.contact.map Json.str)),
        ("recoveryToken", .str r.recovery_token), ("agreement", .str r.agreement)]

/-- Decode a JSON array of strings. -/
def str_list : List Json → Option (List String)
  | [] => some []
  | .str s :: rest => (str_list rest).map (s :: ·)
  | _ => none

/-- Embeds `Registration.from_json`.

Modelled from the spec: §4.1 — `from_json` is total on well-typed inputs
and fails with `DeserializationError` (here `none`) on structural
mismatch. -/
def Registration.from_json : Json → Option Registration
  | .obj [("key", .str k), ("contact", .arr cs),
          ("recoveryToken", .str rt), ("agreement", .str ag)] =>
      (str_list cs).map fun contact =>
        { key := k, contact := contact, recovery_token := rt, agreement := ag }
  | _ => none

/-- Embeds `acme.messages.RegistrationResource` as persisted by the account
store (§3, §4.2: `uri`, `new_authzr_uri`, `terms_of_service` are not
marked optional in the spec's data model). -/
structure RegistrationResource where
  body : Registration
  uri : String
  new_authzr_uri : String
  terms_of_service : String
deriving DecidableEq, Repr

/-- Embeds `letsencrypt.account.Account` (the fields `save`/`_from_config_fp`
exchange; the `config` reference carries no data here). -/
structure Account where
  key : Key
  email : Option String
  phone : Option String
  regr : Option RegistrationResource
deriving DecidableEq, Repr

/-- Character class of the local part of `Account.EMAIL_REGEX`
(`[a-zA-Z0-9._%+-]`). -/
def is_email_local_char (c : Char) : Bool :=
  c.isAlpha || c.isDigit || c == '.' || c == '_' || c == '%' || c == '+' || c == '-'

/-- Character class of the domain part (`[a-zA-Z0-9.-]`). -/
def is_email_domain_char (c : Char) : Bool :=
  c.isAlpha || c.isDigit || c == '.' || c == '-'

/-- Embeds `EMAIL_REGEX.match(email)` for
`"[a-zA-Z0-9._%+-]+@[a-zA-Z0-9.-]+$"`: since `@` is in neither character
class, a match is exactly a non-empty local-part run, an `@`, and a
non-empty all-domain-chars remainder. -/
def email_regex_match (s : String) : Bool :=
  let cs := s.toList
  match cs.dropWhile is_email_local_char with
  | '@' :: dom =>
      !(cs.takeWhile is_email_local_char).isEmpty
        && !dom.isEmpty && dom.all is_email_domain_char
  | _ => false

/-- Embeds `".." in email`. -/
def has_double_dot : List Char → Bool
  | '.' :: '.' :: _ => true
  | _ :: rest => has_double_dot rest
  | [] => false

/-- Embeds `email.startswith(".")`. -/
def starts_with_dot (s : String) : Bool :=
  match s.toList with
  | '.' :: _ => true
  | _ => false

/-- Embeds `Account.safe_email(email)`. -/
def safe_email (email : String) : Bool :=
  email_regex_match email && !starts_with_dot email
    && !has_double_dot email.toList

/-- Embeds `Account.__init__`: the email is kept only when present and safe. -/
def account_init (key : Key) (email : Option String) (phone : Option String)
    (regr : Option RegistrationResource) : Account :=
  { key := key
    email := match email with
             | some e => if safe_email e then some e else none
             | none => none
    phone := phone
    regr := regr }

/-- Embeds `Account._get_config_filename(email)`: the email when present and
non-empty, else `"default"`. -/
def get_config_filename : Option String → String
  | some e => if e ≠ "" then e else "default"
  | none => "default"

/-- The `RegistrationResource` section of the persisted config file. -/
structure RegrSection where
  uri : String
  new_authzr_uri : String
  terms_of_service : String
  body : Json

/-- The persisted account config file (`configobj` key=value file): keys
`key` (path to the key PEM) and `phone` (stringified, so an absent phone
becomes the literal `"None"`), plus the optional registration section. -/
structure AccConfig where
  key : String
  phone : String
  regr : Option RegrSection

/-- Python `str(x)` for an optional string: `"None"` when absent. -/
def py_str_opt : Option String → String
  | none => "None"
  | some s => s

/-- Embeds `Account.save()`: the filename written under `accounts_dir` and the
file's contents. -/
def Account.save (acc : Account) : String × AccConfig :=
  (get_config_filename acc.email,
   { key := acc.key.file
     phone := py_str_opt acc.phone
     regr := acc.regr.map fun r =>
       { uri := r.uri, new_authzr_uri := r.new_authzr_uri
         terms_of_service := r.terms_of_service, body := r.body.to_json } })

/-- Embeds `Account._from_config_fp(config, config_fp)`: `path` is the file's
basename and `key_file_contents` what `open(acc_config["key"]).read()`
returns.  The email is recovered from the filename, a `"None"` phone
decodes to absent, and the registration body is re-parsed from JSON. -/
def from_config_fp (path : String) (cfg : AccConfig)
    (key_file_contents : String) : Except PyErr Account :=
  let email := if path ≠ "default" then some path else none
  let phone := if cfg.phone ≠ "None" then some cfg.phone else none
  let key : Key := { file := cfg.key, pem := key_file_contents }
  match cfg.regr with
  | some rs =>
      match Registration.from_json rs.body with
      | none => .error (.otherErr "DeserializationError")
      | some body =>
          .ok (account_init key email phone
            (some { body := body, uri := rs.uri
                    new_authzr_uri := rs.new_authzr_uri
                    terms_of_service := rs.terms_of_service }))
  | none => .ok (account_init key email phone none)

/-- Embeds `Account.from_existing_account(config, email)`: locate the config
file by `_get_config_filename`, then load it.  `fs` maps filenames in
`accounts_dir` to their parsed contents and `key_fs` maps key-file paths
to their contents. -/
def Account.from_existing_account (fs : String → Option AccConfig)
    (key_fs : String → Option String) (email : Option String) :
    Except PyErr Account :=
  let path := get_config_filename email
  match fs path with
  | none => .error (.clientErr ("Account for " ++ path ++ " does not exist"))
  | some cfg =>
      match key_fs cfg.key with
      | none => .error (.otherErr "IOError")
      | some kc => from_config_fp path cfg kc

/-! ## Client facade (`client.py`, `Client.obtain_certificate`) -/

/-- Embeds `acme.messages.CertificateResource`; `body` is the certificate,
collapsed to its PEM string (`body.as_pem()` is the identity here). -/
structure CertificateResource where
  body : String
  uri : String
  cert_chain_uri : Option String
deriving DecidableEq, Repr

/-- The client's extra collaborators: key/CSR generation
(`crypto_util.init_save_key` / `init_save_csr`) and the issuance side of
the network port. -/
structure ClientEnv (W : Type) extends Env W where
  initSaveKey : W → W × Key
  initSaveCsr : W → Key → List String → W × String
  requestIssuance : W → String → List AuthzrResource → W × CertificateResource
  fetchChain : W → CertificateResource → W × Option String

/-- Embeds `Client.obtain_certificate(domains, csr)`.  `authHandlerSet` models
`self.auth_handler is not None`, `regr` is `self.account.regr`, `key` the
account key and `hst` the handler's state.  The caller's `csr` argument is
the last parameter; the result `.ok none` reports divergence of the
challenge loop (fuel exhaustion). -/
def obtain_certificate {W : Type} (e : ClientEnv W) (fuel : Nat) (w : W)
    (authHandlerSet : Bool) (hst : HState) (key : String)
    (regr : Option RegistrationResource) (domains : List String)
    (csr : Option String) :
    W × Except PyErr (Option (String × String × String)) :=
  if !authHandlerSet then
    (w, .error (.clientErr
      "Unable to obtain certificate because authenticator is not set."))
  else
    match regr with
    | none => (w, .error (.clientErr "Please register with the ACME server first."))
    | some r =>
        match get_authorizations e.toEnv fuel w hst key
            (some r.new_authzr_uri) domains false with
        | (w1, _, .error err) => (w1, .error err)
        | (w1, _, .ok none) => (w1, .ok none)
        | (w1, _, .ok (some authzr)) =>
            let k := e.initSaveKey w1
            let c := e.initSaveCsr k.1 k.2 domains
            let iss := e.requestIssuance c.1 c.2 authzr
            let cert_pem := iss.2.body
            let ch : W × Option String :=
              match iss.2.cert_chain_uri with
              | some _ => e.fetchChain iss.1 iss.2
              | none => (iss.1, none)
            let chain_pem := match ch.2 with
                             | none => ""
                             | some s => s
            (ch.1, .ok (some (cert_pem, k.2.pem, chain_pem)))

/-! ## Concrete fixtures

Closed values used by counterexamples and witnesses: a trivial environment
over `W := Unit` together with small variations, and concrete challenge,
authorization and account data. -/

/-- An authorization that is already `valid` and offers no challenges. -/
def arValid : AuthzrResource :=
  { body := { identifier := "a.test", challenges := [], combinations := []
              status := Status.valid }
    uri := "authz-valid", new_cert_uri := "new-cert" }

/-- A benign environment: every domain's authorization comes back `valid`
with no challenges, both authenticators prefer nothing and answer nothing,
and polling returns the authorization unchanged. -/
def envOk : Env Unit :=
  { requestDomainChallenges := fun _ _ _ => ((), arValid)
    contGetChallPref := fun _ _ => []
    dvGetChallPref := fun _ _ => []
    contPerform := fun _ achs => ((), .ok (achs.map fun _ => none))
    dvPerform := fun _ achs => ((), .ok (achs.map fun _ => none))
    contCleanup := fun _ _ => ()
    dvCleanup := fun _ _ => ()
    answerChallenge := fun _ _ _ => ()
    poll := fun _ ar => ((), ar) }

/-- A pending `SimpleHTTP` challenge body. -/
def cbSHpend : ChallengeBody :=
  { uri := "chall-uri", status := Status.pending, chall := ChallType.SimpleHTTP
    token := "tok" }

/-- The authorization for `d.test` as first requested: `pending`, offering
only `cbSHpend`, no combinations. -/
def arPending : AuthzrResource :=
  { body := { identifier := "d.test", challenges := [cbSHpend]
              combinations := [], status := Status.pending }
    uri := "authz-pending", new_cert_uri := "new-cert" }

/-- The same authorization after the server invalidates it while leaving
the offered challenge `pending` (e.g. the authorization expired or another
challenge failed server-side). -/
def arInvalidC1 : AuthzrResource :=
  { body := { identifier := "d.test", challenges := [cbSHpend]
              combinations := [], status := Status.invalid }
    uri := "authz-invalid", new_cert_uri := "new-cert" }

/-- Environment for the C1 counterexample: the server offers `cbSHpend`,
the DV authenticator answers it, and every poll reports the authorization
`invalid` while the individual challenge stays `pending`. -/
def envC1 : Env Unit :=
  { envOk with
    requestDomainChallenges := fun _ _ _ => ((), arPending)
    dvGetChallPref := fun _ _ => [ChallType.SimpleHTTP]
    dvPerform := fun _ achs => ((), .ok (achs.map fun _ => some "resp"))
    poll := fun _ _ => ((), arInvalidC1) }

/-- The achall the handler builds for `cbSHpend` on `d.test`. -/
def achD : Achall := challb_to_achall cbSHpend "key" "d.test"

/-- The `chall_update` map of the C1 counterexample run. -/
def cuC1 : List (String × List Achall) := [("d.test", [achD])]

/-- Handler state after `_choose_challenges` in the C1 counterexample. -/
def stChoose : HState :=
  { authzr := [("d.test", arPending)], dv_c := [achD], cont_c := [] }

/-- The poll-loop fixed point of the C1 counterexample: the authorization
has turned `invalid`, the achall is still outstanding. -/
def stFixC1 : HState :=
  { authzr := [("d.test", arInvalidC1)], dv_c := [achD], cont_c := [] }

/-- Final handler state of the C1 counterexample run. -/
def stFinalC1 : HState :=
  { authzr := [("d.test", arInvalidC1)], dv_c := [], cont_c := [] }

/-- Two distinct DV achalls for the same domain (C2 failing input). -/
def achC2a : Achall :=
  { challb := { uri := "uA", status := Status.pending
                chall := ChallType.SimpleHTTP, token := "tA" }
    domain := "d.test", key := some "key" }

def achC2b : Achall :=
  { challb := { uri := "uB", status := Status.pending
                chall := ChallType.SimpleHTTP, token := "tB" }
    domain := "d.test", key := some "key" }

/-- Handler state with two outstanding DV challenges. -/
def stC2 : HState := { authzr := [], dv_c := [achC2a, achC2b], cont_c := [] }

/-- Environment whose DV authenticator `perform` raises
`AuthorizationError`. -/
def envC2 : Env Unit :=
  { envOk with dvPerform := fun _ _ => ((), .error (.authErr "perform failed")) }

/-- An authorization in `revoked` status (C3 counterexample). -/
def arRevoked : AuthzrResource :=
  { body := { identifier := "r.test", challenges := [], combinations := []
              status := Status.revoked }
    uri := "authz-revoked", new_cert_uri := "new-cert" }

/-- The offered challenges of spec §8's smart-path example:
`[SimpleHTTP, DNS, RecoveryToken]`. -/
def challbsW : List ChallengeBody :=
  [{ uri := "u1", status := Status.pending, chall := ChallType.SimpleHTTP
     token := "T" },
   { uri := "u2", status := Status.pending, chall := ChallType.DNS
     token := "U" },
   { uri := "u3", status := Status.pending, chall := ChallType.RecoveryToken
     token := "R" }]

/-- The preference list of spec §8's smart-path example. -/
def prefsW : List ChallType :=
  [ChallType.DVSNI, ChallType.SimpleHTTP, ChallType.DNS,
   ChallType.RecoveryToken]

/-- A `DVSNI` challenge body (C5 witness). -/
def cb5a : ChallengeBody :=
  { uri := "c1", status := Status.pending, chall := ChallType.DVSNI
    token := "x" }

/-- A `SimpleHTTP` challenge body, mutually exclusive with `cb5a` under
`EXCLUSIVE_CHALLENGES` (C5 witness). -/
def cb5b : ChallengeBody :=
  { uri := "c2", status := Status.pending, chall := ChallType.SimpleHTTP
    token := "y" }

def challbs5 : List ChallengeBody := [cb5a, cb5b]

def prefs5 : List ChallType := [ChallType.DVSNI, ChallType.SimpleHTTP]

/-- A concrete registration resource (C8 witness). -/
def regrW : RegistrationResource :=
  { body := { key := "jwk-pub", contact := ["tel:1234", "mailto:a@b.com"]
              recovery_token := "XYZ", agreement := "https://tos" }
    uri := "reg-uri", new_authzr_uri := "new-authzr"
    terms_of_service := "tos-uri" }

/-- A concrete account with a valid email, phone and registration (C8
witness). -/
def accW : Account :=
  { key := { file := "/keys/a@b.com", pem := "PEM-DATA" }
    email := some "a@b.com", phone := some "1234", regr := some regrW }

/-- A one-file account directory holding exactly `accW`'s saved config. -/
def fsW : String → Option AccConfig :=
  fun s => if s = "a@b.com" then some accW.save.2 else none

/-- A key store holding exactly `accW`'s key file. -/
def kfsW : String → Option String :=
  fun s => if s = "/keys/a@b.com" then some "PEM-DATA" else none

/-! ## Supporting lemmas: association lists -/

theorem lookupAssoc_updateAssoc_self {α β : Type} [DecidableEq α]
    (m : List (α × β)) (k : α) (v : β) :
    lookupAssoc (updateAssoc m k v) k = some v := by
  induction m with
  | nil => simp [updateAssoc, lookupAssoc]
  | cons p rest ih =>
      obtain ⟨k', v'⟩ := p
      by_cases h : k' = k
      · subst h
        simp [updateAssoc, lookupAssoc]
      · simp [updateAssoc, lookupAssoc, h, ih]

theorem lookupAssoc_updateAssoc_ne {α β : Type} [DecidableEq α]
    (m : List (α × β)) (k k' : α) (v : β) (h : k' ≠ k) :
    lookupAssoc (updateAssoc m k v) k' = lookupAssoc m k' := by
  induction m with
  | nil => simp [updateAssoc, lookupAssoc, Ne.symm h]
  | cons p rest ih =>
      obtain ⟨ka, va⟩ := p
      by_cases hk : ka = k
      · subst hk
        simp only [updateAssoc, if_pos rfl, lookupAssoc]
        simp [Ne.symm h]
      · simp only [updateAssoc, if_neg hk, lookupAssoc]
        by_cases hk' : ka = k'
        · simp [hk']
        · simp [hk', ih]

theorem mem_keys_updateAssoc {α β : Type} [DecidableEq α]
    (m : List (α × β)) (k : α) (v : β) (d : α) :
    d ∈ (updateAssoc m k v).map Prod.fst ↔ d ∈ m.map Prod.fst ∨ d = k := by
  induction m with
  | nil => simp [updateAssoc]
  | cons p rest ih =>
      obtain ⟨ka, va⟩ := p
      by_cases hk : ka = k
      · subst hk
        simp [updateAssoc]
        tauto
      · simp only [updateAssoc, if_neg hk, List.map_cons, List.mem_cons]
        rw [ih]
        tauto

theorem nodup_keys_updateAssoc {α β : Type} [DecidableEq α]
    (m : List (α × β)) (k : α) (v : β)
    (h : (m.map Prod.fst).Nodup) : ((updateAssoc m k v).map Prod.fst).Nodup := by
  induction m with
  | nil => simp [updateAssoc]
  | cons p rest ih =>
      obtain ⟨ka, va⟩ := p
      simp only [List.map_cons, List.nodup_cons] at h
      by_cases hk : ka = k
      · subst hk
        simpa [updateAssoc] using h
      · simp only [updateAssoc, if_neg hk, List.map_cons, List.nodup_cons]
        refine ⟨fun hc => ?_, ih h.2⟩
        rw [mem_keys_updateAssoc] at hc
        rcases hc with hc | hc
        · exact h.1 hc
        · exact hk hc

/-! ## Supporting lemmas: smart-path costs -/

theorem rank_of_eq_none_iff (prefs : List ChallType) (t : ChallType) :
    rank_of prefs t = none ↔ t ∉ prefs := by
  induction prefs with
  | nil => simp [rank_of]
  | cons c rest ih =>
      by_cases h : c = t
      · subst h
        simp [rank_of]
      · simp only [rank_of, if_neg h, List.mem_cons, Option.map_eq_none']
        rw [ih]
        constructor
        · rintro hn (he | hm)
          · exact h he.symm
          · exact hn hm
        · intro hn hm
          exact hn (Or.inr hm)

theorem smart_cost_loop_lookup (t : ChallType) :
    ∀ (prefs : List ChallType) (i : Nat) (m : List (ChallType × Nat)) (mc : Nat),
    prefs.Nodup →
    lookupAssoc (smart_cost_loop prefs i m mc).1 t =
      (match rank_of prefs t with
       | some r => some (i + r)
       | none => lookupAssoc m t) := by
  intro prefs
  induction prefs with
  | nil => intro i m mc _; simp [smart_cost_loop, rank_of]
  | cons c rest ih =>
      intro i m mc hnd
      simp only [List.nodup_cons] at hnd
      by_cases h : c = t
      · subst h
        have hnone : rank_of rest c = none := (rank_of_eq_none_iff rest c).2 hnd.1
        simp only [smart_cost_loop, rank_of, if_pos rfl]
        rw [ih (i + 1) (updateAssoc m c i) (mc + i) hnd.2, hnone]
        simp [lookupAssoc_updateAssoc_self]
      · simp only [smart_cost_loop, rank_of, if_neg h]
        rw [ih (i + 1) (updateAssoc m c i) (mc + i) hnd.2]
        cases hr : rank_of rest t with
        | none =>
            simp only [hr, Option.map_none']
            exact lookupAssoc_updateAssoc_ne m c t i (fun hh => h hh.symm)
        | some r =>
            simp only [hr, Option.map_some']
            congr 1
            omega

/-- Sum of `i, i+1, ..., i+n-1` (accumulated into `max_cost` by the
enumeration loop). -/
def range_shift_sum (i : Nat) : Nat → Nat
  | 0 => 0
  | n + 1 => i + range_shift_sum (i + 1) n

theorem smart_cost_loop_mc :
    ∀ (prefs : List ChallType) (i : Nat) (m : List (ChallType × Nat)) (mc : Nat),
    (smart_cost_loop prefs i m mc).2 = mc + range_shift_sum i prefs.length := by
  intro prefs
  induction prefs with
  | nil => intro i m mc; simp [smart_cost_loop, range_shift_sum]
  | cons c rest ih =>
      intro i m mc
      simp only [smart_cost_loop, List.length_cons, range_shift_sum]
      rw [ih (i + 1) (updateAssoc m c i) (mc + i)]
      omega

theorem range_shift_sum_succ_left (n : Nat) :
    ∀ i, range_shift_sum (i + 1) n = range_shift_sum i n + n := by
  induction n with
  | zero => intro i; simp [range_shift_sum]
  | succ n ih =>
      intro i
      simp only [range_shift_sum]
      rw [ih (i + 1)]
      omega

theorem range_shift_sum_eq_range_sum (n : Nat) :
    range_shift_sum 0 n = (List.range n).sum := by
  induction n with
  | zero => simp [range_shift_sum]
  | succ n ih =>
      rw [List.range_succ, List.sum_append]
      simp only [range_shift_sum, Nat.zero_add, range_shift_sum_succ_left, ih]
      simp

theorem smart_costs_mc (prefs : List ChallType) :
    (smart_costs prefs).2 = spec_max_cost prefs := by
  rw [smart_costs, smart_cost_loop_mc, range_shift_sum_eq_range_sum,
    spec_max_cost]
  omega

theorem smart_costs_lookup (prefs : List ChallType) (hnd : prefs.Nodup)
    (cb : ChallengeBody) :
    (lookupAssoc (smart_costs prefs).1 cb.chall).getD (smart_costs prefs).2 =
      spec_chall_cost prefs cb := by
  rw [smart_costs, smart_cost_loop_lookup cb.chall prefs 0 [] 1 hnd]
  cases hr : rank_of prefs cb.chall with
  | none =>
      simp only [lookupAssoc, Option.getD_none]
      rw [spec_chall_cost, hr, Option.getD_none, ← smart_costs_mc, smart_costs]
  | some r => simp [spec_chall_cost, hr]

theorem combo_cost_eq_spec (prefs : List ChallType) (hnd : prefs.Nodup)
    (challbs : List ChallengeBody) :
    ∀ (combo : List Nat), (∀ i ∈ combo, i < challbs.length) →
    combo_cost (smart_costs prefs).1 (smart_costs prefs).2 challbs combo =
      some (spec_combo_cost prefs challbs combo) := by
  intro combo
  induction combo with
  | nil => intro _; simp [combo_cost, spec_combo_cost]
  | cons i rest ih =>
      intro hb
      have hi : i < challbs.length := hb i (List.mem_cons_self i rest)
      have hcb : challbs[i]? = some challbs[i] := List.getElem?_eq_getElem hi
      set cb := challbs[i] with hcbdef
      simp only [combo_cost, hcb]
      rw [ih (fun j hj => hb j (List.mem_cons_of_mem i hj))]
      simp only [spec_combo_cost, List.map_cons, List.sum_cons, hcb]
      rw [smart_costs_lookup prefs hnd cb]

theorem run_min_le (costf : List Nat → Nat) :
    ∀ (combos : List (List Nat)) (bc : Nat), run_min costf bc combos ≤ bc := by
  intro combos
  induction combos with
  | nil => intro bc; simp [run_min]
  | cons c rest ih =>
      intro bc
      have h1 : run_min costf bc (c :: rest) = run_min costf (min bc (costf c)) rest := rfl
      rw [h1]
      exact le_trans (ih (min bc (costf c))) (min_le_left _ _)

theorem smart_fold_spec (prefs : List ChallType) (hnd : prefs.Nodup)
    (challbs : List ChallengeBody) :
    ∀ (combos : List (List Nat)) (best : List Nat) (bc : Nat),
    (∀ c ∈ combos, ∀ i ∈ c, i < challbs.length) →
    ∃ b', smart_fold (smart_costs prefs).1 (smart_costs prefs).2 challbs
        combos best bc = some (b', run_min (spec_combo_cost prefs challbs) bc combos) ∧
      ((run_min (spec_combo_cost prefs challbs) bc combos = bc ∧ b' = best) ∨
       (run_min (spec_combo_cost prefs challbs) bc combos < bc ∧
        combos.find? (fun c => spec_combo_cost prefs challbs c == run_min
          (spec_combo_cost prefs challbs) bc combos) = some b')) := by
  intro combos
  induction combos with
  | nil =>
      intro best bc _
      exact ⟨best, rfl, Or.inl ⟨rfl, rfl⟩⟩
  | cons c rest ih =>
      intro best bc hb
      have hc : combo_cost (smart_costs prefs).1 (smart_costs prefs).2 challbs c =
          some (spec_combo_cost prefs challbs c) :=
        combo_cost_eq_spec prefs hnd challbs c
          (fun i hi => hb c (List.mem_cons_self c rest) i hi)
      have hbr : ∀ d ∈ rest, ∀ i ∈ d, i < challbs.length :=
        fun d hd i hi => hb d (List.mem_cons_of_mem c hd) i hi
      have hrm : run_min (spec_combo_cost prefs challbs) bc (c :: rest) =
          run_min (spec_combo_cost prefs challbs)
            (min bc (spec_combo_cost prefs challbs c)) rest := rfl
      by_cases hlt : spec_combo_cost prefs challbs c < bc
      · obtain ⟨b', hfold, hdisj⟩ := ih c (spec_combo_cost prefs challbs c) hbr
        refine ⟨b', ?_, ?_⟩
        · simp only [smart_fold, hc, if_pos hlt, hfold, hrm,
            min_eq_right (le_of_lt hlt)]
        · rw [hrm, min_eq_right (le_of_lt hlt)]
          rcases hdisj with ⟨heq, hbest⟩ | ⟨hlt2, hfind⟩
          · right
            refine ⟨by rw [heq]; exact hlt, ?_⟩
            rw [List.find?_cons]
            have : (spec_combo_cost prefs challbs c ==
                run_min (spec_combo_cost prefs challbs)
                  (spec_combo_cost prefs challbs c) rest) = true := by
              simp [heq]
            rw [this, hbest]
          · right
            refine ⟨lt_trans hlt2 hlt, ?_⟩
            rw [List.find?_cons]
            have : (spec_combo_cost prefs challbs c ==
                run_min (spec_combo_cost prefs challbs)
                  (spec_combo_cost prefs challbs c) rest) = false := by
              simp only [beq_eq_false_iff_ne, ne_eq]
              omega
            rw [this, hfind]
      · obtain ⟨b', hfold, hdisj⟩ := ih best bc hbr
        refine ⟨b', ?_, ?_⟩
        · simp only [smart_fold, hc, if_neg hlt, hfold, hrm,
            min_eq_left (le_of_not_lt hlt)]
        · rw [hrm, min_eq_left (le_of_not_lt hlt)]
          rcases hdisj with ⟨heq, hbest⟩ | ⟨hlt2, hfind⟩
          · exact Or.inl ⟨heq, hbest⟩
          · right
            refine ⟨hlt2, ?_⟩
            rw [List.find?_cons]
            have : (spec_combo_cost prefs challbs c ==
                run_min (spec_combo_cost prefs challbs) bc rest) = false := by
              simp only [beq_eq_false_iff_ne, ne_eq]
              omega
            rw [this, hfind]

/-- C4 (counterexample): with preference list `[SimpleHTTP]` and server
combinations `[[]]`, the empty combination has total cost 0, strictly
below `max_cost = 1`, yet `_find_smart_path` raises `AuthorizationError`
because the winning combination is empty and `if not best_combo:` cannot
tell "no winner" from "empty winner".  This refutes the claim's "raises
AuthorizationError if and only if no combination has total cost <
max_cost". -/
theorem find_smart_path_empty_combo_raises :
    find_smart_path [] [ChallType.SimpleHTTP] [[]] =
      .error (.authErr smartFailMsg)
    ∧ spec_combo_cost [ChallType.SimpleHTTP] [] [] = 0
    ∧ 0 < spec_max_cost [ChallType.SimpleHTTP] := by
  refine ⟨rfl, rfl, by decide⟩

/-- C4 (amended): for a duplicate-free preference list and in-bounds
combinations, `_find_smart_path` computes each combination's cost as the
sum of the 0-based preference ranks of its challenges' variants (charging
`max_cost = sum(ranks)+1` for unsupported variants).  Writing `m` for the
least combination cost (clipped at `max_cost`): if `m < max_cost` the
first combination of cost `m` wins, and the function returns it unless it
is empty, in which case it raises `AuthorizationError`; if no combination
has cost below `max_cost` it raises `AuthorizationError`. -/
theorem find_smart_path_selects_first_min
    (challbs : List ChallengeBody) (prefs : List ChallType)
    (combos : List (List Nat)) (hnd : prefs.Nodup)
    (hb : ∀ c ∈ combos, ∀ i ∈ c, i < challbs.length) :
    (run_min (spec_combo_cost prefs challbs) (spec_max_cost prefs) combos <
        spec_max_cost prefs →
      ∃ best, combos.find? (fun c => spec_combo_cost prefs challbs c ==
          run_min (spec_combo_cost prefs challbs) (spec_max_cost prefs) combos) =
            some best ∧
        find_smart_path challbs prefs combos =
          (if best.isEmpty then .error (.authErr smartFailMsg) else .ok best))
    ∧ (¬ run_min (spec_combo_cost prefs challbs) (spec_max_cost prefs) combos <
          spec_max_cost prefs →
        find_smart_path challbs prefs combos = .error (.authErr smartFailMsg)) := by
  have hmc := smart_costs_mc prefs
  obtain ⟨b', hfold, hdisj⟩ :=
    smart_fold_spec prefs hnd challbs combos [] (smart_costs prefs).2 hb
  have hpath : find_smart_path challbs prefs combos =
      (if b'.isEmpty then .error (.authErr smartFailMsg) else .ok b') := by
    simp only [find_smart_path, hfold]
  rw [hmc] at hfold hdisj
  constructor
  · intro hlt
    rcases hdisj with ⟨heq, _⟩ | ⟨_, hfind⟩
    · omega
    · exact ⟨b', hfind, hpath⟩
  · intro hnlt
    have hle := run_min_le (spec_combo_cost prefs challbs) combos (spec_max_cost prefs)
    rcases hdisj with ⟨_, hbest⟩ | ⟨hlt2, _⟩
    · subst hbest
      simpa using hpath
    · omega

/-- Helper for C10: an in-bounds combination always has a defined cost. -/
theorem combo_cost_isSome (cm : List (ChallType × Nat)) (mc : Nat)
    (challbs : List ChallengeBody) :
    ∀ (combo : List Nat), (∀ i ∈ combo, i < challbs.length) →
    ∃ t, combo_cost cm mc challbs combo = some t := by
  intro combo
  induction combo with
  | nil => intro _; exact ⟨0, rfl⟩
  | cons i rest ih =>
      intro hb
      have hi : i < challbs.length := hb i (List.mem_cons_self i rest)
      have hcb : challbs[i]? = some challbs[i] := List.getElem?_eq_getElem hi
      obtain ⟨t, ht⟩ := ih (fun j hj => hb j (List.mem_cons_of_mem i hj))
      exact ⟨(lookupAssoc cm challbs[i].chall).getD mc + t, by
        simp only [combo_cost, hcb, ht]⟩

/-- Helper for C10: on in-bounds combinations the selection fold never
faults. -/
theorem smart_fold_ne_none (cm : List (ChallType × Nat)) (mc : Nat)
    (challbs : List ChallengeBody) :
    ∀ (combos : List (List Nat)) (best : List Nat) (bc : Nat),
    (∀ c ∈ combos, ∀ i ∈ c, i < challbs.length) →
    smart_fold cm mc challbs combos best bc ≠ none := by
  intro combos
  induction combos with
  | nil => intro best bc _; simp [smart_fold]
  | cons c rest ih =>
      intro best bc hb
      obtain ⟨t, ht⟩ := combo_cost_isSome cm mc challbs c
        (fun i hi => hb c (List.mem_cons_self c rest) i hi)
      have hbr : ∀ d ∈ rest, ∀ i ∈ d, i < challbs.length :=
        fun d hd i hi => hb d (List.mem_cons_of_mem c hd) i hi
      simp only [smart_fold, ht]
      by_cases hlt : t < bc
      · simp only [if_pos hlt]
        exact ih c t hbr
      · simp only [if_neg hlt]
        exact ih best bc hbr

/-- C10: `_find_smart_path` indexes the offered challenges by every index
of every server combination with no bounds check.  It is total (never the
modelled `IndexError`) when every index is in range; and on the concrete
input `challbs = []`, `combinations = [[0]]` it faults with `IndexError`
instead of poisoning or rejecting the combination (which would surface as
`AuthorizationError`). -/
theorem find_smart_path_bounds :
    (∀ (challbs : List ChallengeBody) (prefs : List ChallType)
       (combos : List (List Nat)),
      (∀ c ∈ combos, ∀ i ∈ c, i < challbs.length) →
      ∀ s, find_smart_path challbs prefs combos ≠ .error (.otherErr s))
    ∧ find_smart_path [] [ChallType.SimpleHTTP] [[0]] =
        .error (.otherErr "IndexError") := by
  constructor
  · intro challbs prefs combos hb s
    have hne := smart_fold_ne_none (smart_costs prefs).1 (smart_costs prefs).2
      challbs combos [] (smart_costs prefs).2 hb
    simp only [find_smart_path]
    cases hf : smart_fold (smart_costs prefs).1 (smart_costs prefs).2 challbs
        combos [] (smart_costs prefs).2 with
    | none => exact absurd hf hne
    | some p =>
        obtain ⟨best, bc⟩ := p
        by_cases he : best.isEmpty
        · simp [he]
        · simp [he]
  · rfl

/-- C10 (witness): on the spec §8 example — all indices in bounds — the
smart path does not fault. -/
theorem find_smart_path_bounds_witness :
    find_smart_path challbsW prefsW [[0, 2], [1, 2]] ≠
      .error (.otherErr "IndexError") :=
  find_smart_path_bounds.1 challbsW prefsW [[0, 2], [1, 2]] (by decide)
    "IndexError"

/-- C4 (witness): the spec §8 example — offered
`[SimpleHTTP, DNS, RecoveryToken]`, preferences
`[DVSNI, SimpleHTTP, DNS, RecoveryToken]`, combinations `[[0,2],[1,2]]` —
selects `[0,2]` (rank sum 1+3=4, beating 2+3=5, with `max_cost = 7`). -/
theorem find_smart_path_selects_first_min_witness :
    find_smart_path challbsW prefsW [[0, 2], [1, 2]] = .ok [0, 2] := by
  have h := find_smart_path_selects_first_min challbsW prefsW [[0, 2], [1, 2]]
    (by decide) (by decide)
  obtain ⟨best, hfind, heq⟩ := h.1 (by decide)
  have hb : best = [0, 2] := by
    have : ([[0, 2], [1, 2]].find? (fun c => spec_combo_cost prefsW challbsW c ==
        run_min (spec_combo_cost prefsW challbsW) (spec_max_cost prefsW)
          [[0, 2], [1, 2]])) = some [0, 2] := by decide
    rw [this] at hfind
    exact (Option.some.inj hfind).symm
  subst hb
  simpa using heq

/-- Helper for C5: the prefix-scanning loop of `mutually_exclusive` with
`different=True` triggers exactly when the group is non-empty, the two
variants differ, and each is either pre-flagged or occurs in the group
(the presence flags are monotone and the check runs after every scanned
element, so "both present at some prefix" is "both present at the
end"). -/
theorem scan_group_iff (t1 t2 : ChallType) :
    ∀ (g : List ChallType) (p1 p2 : Bool),
    scan_group t1 t2 true g p1 p2 = true ↔
      (t1 ≠ t2 ∧ g ≠ [] ∧ (p1 = true ∨ t1 ∈ g) ∧ (p2 = true ∨ t2 ∈ g)) := by
  intro g
  induction g with
  | nil => intro p1 p2; simp [scan_group]
  | cons c rest ih =>
      intro p1 p2
      simp only [scan_group]
      split
      · rename_i hcond
        simp only [Bool.not_true, Bool.false_or, Bool.and_eq_true,
          Bool.or_eq_true, beq_iff_eq, Bool.not_eq_true',
          beq_eq_false_iff_ne, ne_eq] at hcond
        obtain ⟨⟨hp, hq⟩, hne⟩ := hcond
        simp only [List.mem_cons, ne_eq]
        constructor
        · intro _
          refine ⟨hne, by simp, ?_, ?_⟩ <;> tauto
        · intro _; trivial
      · rename_i hcond
        rw [ih]
        simp only [Bool.not_true, Bool.false_or, Bool.and_eq_true,
          Bool.or_eq_true, beq_iff_eq, Bool.not_eq_true',
          beq_eq_false_iff_ne, ne_eq] at hcond
        simp only [Bool.or_eq_true, beq_iff_eq, List.mem_cons, ne_eq]
        constructor
        · rintro ⟨hne, _, hp, hq⟩
          refine ⟨hne, by simp, by tauto, by tauto⟩
        · rintro ⟨hne, _, hp, hq⟩
          refine ⟨hne, ?_, by tauto, by tauto⟩
          intro hrest
          subst hrest
          simp only [List.not_mem_nil, or_false] at hp hq
          exact hcond ⟨⟨by tauto, by tauto⟩, hne⟩

/-- Helper for C5: `mutually_exclusive(a, b, groups, different=True)`
holds (returns `True`, i.e. "not exclusive") iff no configured group
contains both variants with the two differing. -/
theorem mutually_exclusive_eq_true_iff (t1 t2 : ChallType)
    (groups : List (List ChallType)) :
    mutually_exclusive t1 t2 groups true = true ↔
      ¬ ∃ g ∈ groups, t1 ∈ g ∧ t2 ∈ g ∧ t1 ≠ t2 := by
  simp only [mutually_exclusive, Bool.not_eq_true', List.any_eq_false]
  constructor
  · rintro h ⟨g, hg, h1, h2, hne⟩
    exact h g hg ((scan_group_iff t1 t2 g false false).2
      ⟨hne, by rintro rfl; exact (List.not_mem_nil t1) h1, Or.inr h1, Or.inr h2⟩)
  · intro h g hg hs
    obtain ⟨hne, _, h1, h2⟩ := (scan_group_iff t1 t2 g false false).1 hs
    rcases h1 with h1 | h1
    · exact absurd h1 (by simp)
    · rcases h2 with h2 | h2
      · exact absurd h2 (by simp)
      · exact h ⟨g, hg, h1, h2, hne⟩

/-- Helper for C5: membership in `enum_from` recovers list indexing. -/
theorem mem_enum_from {α : Type} :
    ∀ (l : List α) (n : Nat) (pr : Nat × α),
    pr ∈ enum_from n l → n ≤ pr.1 ∧ l[pr.1 - n]? = some pr.2 := by
  intro l
  induction l with
  | nil => intro n pr hpr; simp [enum_from] at hpr
  | cons a as ih =>
      intro n pr hpr
      simp only [enum_from, List.mem_cons] at hpr
      rcases hpr with rfl | hpr
      · simp
      · obtain ⟨hle, hget⟩ := ih (n + 1) pr hpr
        refine ⟨by omega, ?_⟩
        have hsub : pr.1 - n = (pr.1 - (n + 1)) + 1 := by omega
        rw [hsub]
        simpa [List.getElem?_cons_succ] using hget

/-- Helper for C5: the inner walk over the offered challenges preserves
the planner invariant — every satisfied pair is compatible, and every
chosen index points at a satisfied challenge. -/
theorem dumb_inner_inv (groups : List (List ChallType))
    (challbs : List ChallengeBody) (p : ChallType) :
    ∀ (pairs : List (Nat × ChallengeBody)) (path : List Nat)
      (sat : List ChallengeBody),
    (∀ pr ∈ pairs, challbs[pr.1]? = some pr.2) →
    (∀ a ∈ sat, ∀ b ∈ sat,
      ¬ ∃ g ∈ groups, a.chall ∈ g ∧ b.chall ∈ g ∧ a.chall ≠ b.chall) →
    (∀ i ∈ path, ∃ cb, challbs[i]? = some cb ∧ cb ∈ sat) →
    (∀ a ∈ (dumb_inner p groups pairs path sat).2,
      ∀ b ∈ (dumb_inner p groups pairs path sat).2,
      ¬ ∃ g ∈ groups, a.chall ∈ g ∧ b.chall ∈ g ∧ a.chall ≠ b.chall)
    ∧ (∀ i ∈ (dumb_inner p groups pairs path sat).1,
        ∃ cb, challbs[i]? = some cb ∧ cb ∈ (dumb_inner p groups pairs path sat).2) := by
  intro pairs
  induction pairs with
  | nil =>
      intro path sat _ hpc hpath
      exact ⟨hpc, hpath⟩
  | cons pr rest ih =>
      intro path sat hpairs hpc hpath
      obtain ⟨i, cb⟩ := pr
      have hpairs' : ∀ q ∈ rest, challbs[q.1]? = some q.2 :=
        fun q hq => hpairs q (List.mem_cons_of_mem _ hq)
      by_cases hsel : (cb.chall == p && is_preferred cb sat groups) = true
      · have hpref : is_preferred cb sat groups = true := by
          simp only [Bool.and_eq_true] at hsel
          exact hsel.2
        have hcompat : ∀ b ∈ sat,
            ¬ ∃ g ∈ groups, cb.chall ∈ g ∧ b.chall ∈ g ∧ cb.chall ≠ b.chall := by
          intro b hb
          have := (List.all_eq_true.1 hpref) b hb
          exact (mutually_exclusive_eq_true_iff cb.chall b.chall groups).1 this
        have hpc' : ∀ a ∈ sat ++ [cb], ∀ b ∈ sat ++ [cb],
            ¬ ∃ g ∈ groups, a.chall ∈ g ∧ b.chall ∈ g ∧ a.chall ≠ b.chall := by
          intro a ha b hb
          rcases List.mem_append.1 ha with ha1 | ha1
          · rcases List.mem_append.1 hb with hb1 | hb1
            · exact hpc a ha1 b hb1
            · rw [List.mem_singleton] at hb1
              rw [hb1]
              rintro ⟨g, hg, h1, h2, hne⟩
              exact hcompat a ha1 ⟨g, hg, h2, h1, hne.symm⟩
          · rw [List.mem_singleton] at ha1
            rw [ha1]
            rcases List.mem_append.1 hb with hb1 | hb1
            · exact hcompat b hb1
            · rw [List.mem_singleton] at hb1
              rw [hb1]
              rintro ⟨g, _, _, _, hne⟩
              exact hne rfl
        have hpath' : ∀ j ∈ path ++ [i],
            ∃ cb2, challbs[j]? = some cb2 ∧ cb2 ∈ sat ++ [cb] := by
          intro j hj
          rcases List.mem_append.1 hj with hj1 | hj1
          · obtain ⟨cb2, hcb2, hmem⟩ := hpath j hj1
            exact ⟨cb2, hcb2, List.mem_append_left _ hmem⟩
          · rw [List.mem_singleton] at hj1
            rw [hj1]
            refine ⟨cb, ?_, List.mem_append_right _ (List.mem_singleton.2 rfl)⟩
            exact hpairs (i, cb) (List.mem_cons_self _ _)
        have hrec := ih (path ++ [i]) (sat ++ [cb]) hpairs' hpc' hpath'
        simpa only [dumb_inner, if_pos hsel] using hrec
      · have hrec := ih path sat hpairs' hpc hpath
        simpa only [dumb_inner, if_neg hsel] using hrec

/-- Helper for C5: the outer walk over the preference list preserves the
planner invariant. -/
theorem dumb_outer_inv (groups : List (List ChallType))
    (challbs : List ChallengeBody) (pairs : List (Nat × ChallengeBody))
    (hpairs : ∀ pr ∈ pairs, challbs[pr.1]? = some pr.2) :
    ∀ (prefs : List ChallType) (path : List Nat) (sat : List ChallengeBody),
    (∀ a ∈ sat, ∀ b ∈ sat,
      ¬ ∃ g ∈ groups, a.chall ∈ g ∧ b.chall ∈ g ∧ a.chall ≠ b.chall) →
    (∀ i ∈ path, ∃ cb, challbs[i]? = some cb ∧ cb ∈ sat) →
    (∀ a ∈ (dumb_outer groups pairs prefs path sat).2,
      ∀ b ∈ (dumb_outer groups pairs prefs path sat).2,
      ¬ ∃ g ∈ groups, a.chall ∈ g ∧ b.chall ∈ g ∧ a.chall ≠ b.chall)
    ∧ (∀ i ∈ (dumb_outer groups pairs prefs path sat).1,
        ∃ cb, challbs[i]? = some cb ∧ cb ∈ (dumb_outer groups pairs prefs path sat).2) := by
  intro prefs
  induction prefs with
  | nil =>
      intro path sat hpc hpath
      exact ⟨hpc, hpath⟩
  | cons p rest ih =>
      intro path sat hpc hpath
      have hin := dumb_inner_inv groups challbs p pairs path sat hpairs hpc hpath
      have hrec := ih (dumb_inner p groups pairs path sat).1
        (dumb_inner p groups pairs path sat).2 hin.1 hin.2
      simpa only [dumb_outer] using hrec

/-- C5: for every offered challenge sequence and duplicate-free preference
list (and any configured exclusive groups), the dumb path returns a
selection of indices no two of which are mutually exclusive: no two
selected challenges both belong to a common exclusive group while being of
different variants. -/
theorem find_dumb_path_no_mutually_exclusive
    (challbs : List ChallengeBody) (prefs : List ChallType)
    (groups : List (List ChallType)) (path : List Nat)
    (h : find_dumb_path challbs prefs groups = .ok path) :
    ∀ i ∈ path, ∀ j ∈ path, ∀ ci cj,
      challbs[i]? = some ci → challbs[j]? = some cj →
      ¬ ∃ g ∈ groups, ci.chall ∈ g ∧ cj.chall ∈ g ∧ ci.chall ≠ cj.chall := by
  unfold find_dumb_path at h
  split at h
  · have hpath : path = (dumb_outer groups (enum_from 0 challbs) prefs [] []).1 :=
      (Except.ok.inj h).symm
    have hpairs : ∀ pr ∈ enum_from 0 challbs, challbs[pr.1]? = some pr.2 := by
      intro pr hpr
      have hh := (mem_enum_from challbs 0 pr hpr).2
      simpa using hh
    have hinv := dumb_outer_inv groups challbs (enum_from 0 challbs) hpairs
      prefs [] [] (by intro a ha; simp at ha) (by intro i hi; simp at hi)
    intro i hi j hj ci cj hci hcj
    rw [hpath] at hi hj
    obtain ⟨cbi, hcbi, hmi⟩ := hinv.2 i hi
    obtain ⟨cbj, hcbj, hmj⟩ := hinv.2 j hj
    have hei : ci = cbi := Option.some.inj (hci.symm.trans hcbi)
    have hej : cj = cbj := Option.some.inj (hcj.symm.trans hcbj)
    rw [hei, hej]
    exact hinv.1 cbi hmi cbj hmj
  · exact absurd h (by simp)

/-- C5 (witness): offered `[DVSNI, SimpleHTTP]` with preferences
`[DVSNI, SimpleHTTP]` under the configured exclusive groups selects only
index 0, whose challenge conflicts with nothing selected. -/
theorem find_dumb_path_no_mutually_exclusive_witness :
    ¬ ∃ g ∈ EXCLUSIVE_CHALLENGES,
      cb5a.chall ∈ g ∧ cb5a.chall ∈ g ∧ cb5a.chall ≠ cb5a.chall :=
  find_dumb_path_no_mutually_exclusive challbs5 prefs5 EXCLUSIVE_CHALLENGES
    [0] rfl 0 (by decide) 0 (by decide) cb5a cb5a rfl rfl

/-- C2: evaluating `_solve_challenges` at the failing input — two
outstanding DV achalls and a DV authenticator whose `perform` raises
`AuthorizationError`.  The handler catches the error and calls
`_cleanup_challenges()`, whose removal loop iterates over `self.dv_c`
while calling `self.dv_c.remove` on the same list object; the iterator
skips every other element, so `achC2b` survives the "full" cleanup and is
still outstanding after the exception propagates, contradicting the
claim (and `_cleanup_challenges`'s own docstring, "cleanup all
achallenges"). -/
theorem solve_challenges_cleanup_leaves_achall :
    solve_challenges envC2 () stC2 =
      ((), { authzr := [], dv_c := [achC2b], cont_c := [] },
        .error (.authErr "perform failed"))
    ∧ achC2b ∈ stC2.dv_c ∧ [achC2b] ≠ ([] : List Achall) := by
  refine ⟨rfl, by decide, by decide⟩

/-- C3 (counterexample): a `revoked` authorization is terminal according
to the claim (`{valid, invalid, revoked}`), yet `verify_authzr_complete`
raises `AuthorizationError("Incomplete authorizations")` on it — the
source only accepts `valid` and `invalid`. -/
theorem verify_authzr_complete_revoked_raises :
    verify_authzr_complete [("r.test", arRevoked)] =
      .error (.authErr "Incomplete authorizations")
    ∧ (arRevoked.body.status = Status.valid ∨
       arRevoked.body.status = Status.invalid ∨
       arRevoked.body.status = Status.revoked) := by
  exact ⟨rfl, by decide⟩

/-- C3 (amended): `verify_authzr_complete` returns normally if and only
if every authorization in the handler's map has status `valid` or
`invalid`; any other status — `pending`, `processing`, and also the
terminal `revoked` — raises `AuthorizationError("Incomplete
authorizations")`. -/
theorem verify_authzr_complete_iff_valid_or_invalid :
    ∀ (m : List (String × AuthzrResource)),
    verify_authzr_complete m = .ok () ↔
      ∀ p ∈ m, p.2.body.status = Status.valid ∨
        p.2.body.status = Status.invalid := by
  intro m
  induction m with
  | nil => simp [verify_authzr_complete]
  | cons q rest ih =>
      obtain ⟨d, ar⟩ := q
      simp only [verify_authzr_complete]
      split
      · rename_i hbad
        simp only [List.mem_cons]
        constructor
        · intro h; exact absurd h (by simp)
        · intro h
          have := h (d, ar) (Or.inl rfl)
          simp only at this
          tauto
      · rename_i hok
        rw [ih]
        simp only [not_and_or, not_not] at hok
        constructor
        · intro h p hp
          rcases List.mem_cons.1 hp with rfl | hp
          · simpa using hok
          · exact h p hp
        · intro h p hp
          exact h p (List.mem_cons.2 (Or.inr hp))

/-- Helper: `verify_authzr_complete` succeeding means every status is
`valid` or `invalid`. -/
theorem verify_ok_forall (m : List (String × AuthzrResource))
    (h : verify_authzr_complete m = .ok ()) :
    ∀ p ∈ m, p.2.body.status = Status.valid ∨
      p.2.body.status = Status.invalid := by
  induction m with
  | nil => intro p hp; simp at hp
  | cons q rest ih =>
      obtain ⟨d, ar⟩ := q
      simp only [verify_authzr_complete] at h
      split at h
      · exact absurd h (by simp)
      · rename_i hok
        simp only [not_and_or, not_not] at hok
        intro p hp
        rcases List.mem_cons.1 hp with rfl | hp
        · simpa using hok
        · exact ih h p hp

/-- C6 (counterexample): run `get_authorizations` for `["a.test"]`, then
start a second call for `["b.test"]` on the same handler.  While the
second call is active (right after its request loop has populated
`self.authzr`), the map still holds the entry for `a.test` from the
earlier call: its key set is `["a.test", "b.test"]`, not the requested
`["b.test"]`. -/
theorem authzr_keys_persist_across_calls :
    ((populate_authzrs envOk none ["b.test"] ()
        (get_authorizations envOk 1 () hstate0 "key" none ["a.test"]
          false).2.1.authzr).2.map Prod.fst) = ["a.test", "b.test"]
    ∧ ("a.test" : String) ∉ (["b.test"] : List String) := by
  exact ⟨rfl, by decide⟩

/-- C6 (amended): while a `get_authorizations` call is active, the
request loop gives `self.authzr` exactly one entry per requested domain
*plus* the entries left over from earlier calls on the same handler: a
domain is a key of the populated map iff it was a key before or is in the
requested list, and keys stay duplicate-free. -/
theorem populate_authzr_keys_union {W : Type} (e : Env W) (uri : Option String) :
    ∀ (domains : List String) (w : W) (m : List (String × AuthzrResource)),
    (∀ d, d ∈ (populate_authzrs e uri domains w m).2.map Prod.fst ↔
        d ∈ m.map Prod.fst ∨ d ∈ domains)
    ∧ ((m.map Prod.fst).Nodup →
        ((populate_authzrs e uri domains w m).2.map Prod.fst).Nodup) := by
  intro domains
  induction domains with
  | nil =>
      intro w m
      constructor
      · intro d; simp [populate_authzrs]
      · intro h; simpa [populate_authzrs] using h
  | cons d0 rest ih =>
      intro w m
      constructor
      · intro d
        simp only [populate_authzrs]
        rw [(ih _ _).1 d, mem_keys_updateAssoc]
        simp only [List.mem_cons]
        tauto
      · intro h
        simp only [populate_authzrs]
        exact (ih _ _).2 (nodup_keys_updateAssoc m d0 _ h)

/-- C6 (amended, witness): populating the empty map for `["a.test"]`
yields exactly the key `a.test`, and keys are duplicate-free. -/
theorem populate_authzr_keys_union_witness :
    (("a.test" : String) ∈
        (populate_authzrs envOk none ["a.test"] () []).2.map Prod.fst)
    ∧ ((populate_authzrs envOk none ["a.test"] () []).2.map Prod.fst).Nodup := by
  have h := populate_authzr_keys_union envOk none ["a.test"] () []
  exact ⟨(h.1 "a.test").2 (Or.inr (by decide)), h.2 (by decide)⟩

/-- Unfolding equation for `poll_loop` when the `while` condition fails
(empty domain set or `rounds ≥ max_rounds`): the loop exits at once, for
any fuel. -/
theorem poll_loop_exit {W : Type} (e : Env W) (be : Bool) (mr : Nat)
    (fuel : Nat) (doms : List String) (rounds : Nat) (w : W) (st : HState)
    (cu : List (String × List Achall))
    (h : (doms.isEmpty || !(decide (rounds < mr))) = true) :
    poll_loop e be mr fuel doms rounds w st cu = (w, st, rounds, .ok ()) := by
  cases fuel with
  | zero => simp only [poll_loop, h, if_true]
  | succ f => simp only [poll_loop, h, if_true]

/-- Unfolding equation for `poll_loop` when the `while` condition holds:
one round executes. -/
theorem poll_loop_step {W : Type} (e : Env W) (be : Bool) (mr : Nat)
    (f' : Nat) (doms : List String) (rounds : Nat) (w : W) (st : HState)
    (cu : List (String × List Achall))
    (h : (doms.isEmpty || !(decide (rounds < mr))) = false) :
    poll_loop e be mr (f' + 1) doms rounds w st cu =
      (match poll_round e be doms w st cu [] with
       | (w1, st1, _, _, some err) => (w1, st1, rounds, .error err)
       | (w1, st1, cu1, comps, none) =>
           poll_loop e be mr f'
             (doms.filter fun d => !(comps.contains d))
             (rounds + 1) w1 st1 cu1) := by
  simp only [poll_loop, h, Bool.false_eq_true, if_false]

/-- Helper for C7: the polling loop's result is independent of the fuel
argument once the fuel covers `max_rounds - rounds` — i.e. the loop
intrinsically terminates within `max_rounds` rounds. -/
theorem poll_loop_fuel_irrelevant {W : Type} (e : Env W) (be : Bool) (mr : Nat) :
    ∀ (f g : Nat) (doms : List String) (rounds : Nat) (w : W) (st : HState)
      (cu : List (String × List Achall)),
    mr - rounds ≤ f → mr - rounds ≤ g →
    poll_loop e be mr f doms rounds w st cu =
      poll_loop e be mr g doms rounds w st cu := by
  intro f
  induction f with
  | zero =>
      intro g doms rounds w st cu hf _
      have hge : (doms.isEmpty || !(decide (rounds < mr))) = true := by
        have : ¬ rounds < mr := by omega
        simp [this]
      rw [poll_loop_exit e be mr 0 doms rounds w st cu hge,
        poll_loop_exit e be mr g doms rounds w st cu hge]
  | succ f' ih =>
      intro g doms rounds w st cu hf hg
      by_cases hcond : (doms.isEmpty || !(decide (rounds < mr))) = true
      · rw [poll_loop_exit e be mr (f' + 1) doms rounds w st cu hcond,
          poll_loop_exit e be mr g doms rounds w st cu hcond]
      · have hcondf : (doms.isEmpty || !(decide (rounds < mr))) = false :=
          Bool.eq_false_iff.2 hcond
        have hlt : rounds < mr := by
          rcases Bool.or_eq_false_iff.1 hcondf with ⟨_, h2⟩
          simpa using h2
        obtain ⟨g', rfl⟩ : ∃ g', g = g' + 1 := by
          cases g with
          | zero => omega
          | succ g' => exact ⟨g', rfl⟩
        rw [poll_loop_step e be mr f' doms rounds w st cu hcondf,
          poll_loop_step e be mr g' doms rounds w st cu hcondf]
        cases hpr : poll_round e be doms w st cu [] with
        | mk w1 rest1 =>
            obtain ⟨st1, cu1, comps, err⟩ := rest1
            cases err with
            | some e2 => rfl
            | none => exact ih g' _ (rounds + 1) w1 st1 cu1 (by omega) (by omega)

/-- Helper for C7: the polling loop never exceeds `max_rounds` completed
rounds. -/
theorem poll_loop_rounds_le {W : Type} (e : Env W) (be : Bool) (mr : Nat) :
    ∀ (f : Nat) (doms : List String) (rounds : Nat) (w : W) (st : HState)
      (cu : List (String × List Achall)),
    rounds ≤ mr →
    (poll_loop e be mr f doms rounds w st cu).2.2.1 ≤ mr := by
  intro f
  induction f with
  | zero =>
      intro doms rounds w st cu hr
      by_cases hcond : (doms.isEmpty || !(decide (rounds < mr))) = true
      · rw [poll_loop_exit e be mr 0 doms rounds w st cu hcond]
        exact hr
      · have hcondf := Bool.eq_false_iff.2 hcond
        simp only [poll_loop, hcondf, Bool.false_eq_true, if_false]
        exact hr
  | succ f' ih =>
      intro doms rounds w st cu hr
      by_cases hcond : (doms.isEmpty || !(decide (rounds < mr))) = true
      · rw [poll_loop_exit e be mr (f' + 1) doms rounds w st cu hcond]
        exact hr
      · have hcondf : (doms.isEmpty || !(decide (rounds < mr))) = false :=
          Bool.eq_false_iff.2 hcond
        have hlt : rounds < mr := by
          rcases Bool.or_eq_false_iff.1 hcondf with ⟨_, h2⟩
          simpa using h2
        rw [poll_loop_step e be mr f' doms rounds w st cu hcondf]
        cases hpr : poll_round e be doms w st cu [] with
        | mk w1 rest1 =>
            obtain ⟨st1, cu1, comps, err⟩ := rest1
            cases err with
            | some e2 => simpa using le_of_lt hlt
            | none => exact ih _ (rounds + 1) w1 st1 cu1 (by omega)

/-- C7: `_poll_challenges` always terminates, executing at most
`max_rounds` polling rounds regardless of what the server keeps
reporting: (i) the number of completed rounds is at most `max_rounds`;
(ii) the defaults are `min_sleep = 3`, `max_rounds = 15` (the
`poll_challenges_default` wrapper, used by `_respond`, fixes exactly
those); (iii) the structural fuel is irrelevant — any fuel of at least
`max_rounds` yields the very same run, so the loop intrinsically stops. -/
theorem poll_challenges_rounds_le_max {W : Type} (e : Env W) (w : W)
    (st : HState) (cu : List (String × List Achall)) (be : Bool)
    (min_sleep max_rounds : Nat) :
    (poll_challenges e w st cu be min_sleep max_rounds).2.2.1 ≤ max_rounds
    ∧ poll_challenges_default e w st cu be = poll_challenges e w st cu be 3 15
    ∧ (∀ fuel, max_rounds ≤ fuel →
        poll_loop e be max_rounds fuel (cu.map Prod.fst) 0 w st cu =
          poll_challenges e w st cu be min_sleep max_rounds) := by
  refine ⟨?_, rfl, ?_⟩
  · exact poll_loop_rounds_le e be max_rounds max_rounds _ 0 w st cu
      (Nat.zero_le _)
  · intro fuel hf
    exact poll_loop_fuel_irrelevant e be max_rounds fuel max_rounds _ 0 w st cu
      (by omega) (by omega)

/-- C7 (witness): the bound and the fuel-irrelevance at a concrete run
(`fuel = 20 ≥ max_rounds = 15`). -/
theorem poll_challenges_rounds_le_max_witness :
    (poll_challenges envOk () hstate0 [] false 3 15).2.2.1 ≤ 15
    ∧ poll_loop envOk false 15 20
        (([] : List (String × List Achall)).map Prod.fst) 0 () hstate0 [] =
      poll_challenges envOk () hstate0 [] false 3 15 := by
  have h := poll_challenges_rounds_le_max envOk () hstate0 [] false 3 15
  exact ⟨h.1, h.2.2 20 (by omega)⟩

/-- Helper for C1: when the post-loop phase returns a list, it is the
`valid`-filtered view of a map that passed `verify_authzr_complete`. -/
theorem finish_auth_ok_some {W : Type} (w : W) (st : HState) (w' : W)
    (st' : HState) (l : List AuthzrResource)
    (h : finish_auth w st = (w', st', .ok (some l))) :
    (∀ r ∈ l, r.body.status = Status.valid) ∧
    (∀ p ∈ st'.authzr, p.2.body.status = Status.valid ∨
      p.2.body.status = Status.invalid) := by
  unfold finish_auth at h
  split at h
  · simp [Prod.mk.injEq] at h
  · rename_i hv
    simp only [Prod.mk.injEq, Except.ok.injEq, Option.some.injEq] at h
    obtain ⟨rfl, rfl, hl⟩ := h
    constructor
    · intro r hr
      rw [← hl] at hr
      have hf := List.of_mem_filter hr
      simpa using hf
    · exact verify_ok_forall st.authzr hv

/-- Helper for C1: whenever the challenge loop finishes with a list, every
returned authorization is `valid` and every authorization in the final
map is `valid` or `invalid`. -/
theorem auth_loop_ok_some {W : Type} (e : Env W) (be : Bool) :
    ∀ (fuel : Nat) (w : W) (st : HState) (w' : W) (st' : HState)
      (l : List AuthzrResource),
    auth_loop e be fuel w st = (w', st', .ok (some l)) →
    (∀ r ∈ l, r.body.status = Status.valid) ∧
    (∀ p ∈ st'.authzr, p.2.body.status = Status.valid ∨
      p.2.body.status = Status.invalid) := by
  intro fuel
  induction fuel with
  | zero =>
      intro w st w' st' l h
      simp only [auth_loop] at h
      split at h
      · exact finish_auth_ok_some w st w' st' l h
      · simp [Prod.mk.injEq] at h
  | succ f ih =>
      intro w st w' st' l h
      simp only [auth_loop] at h
      split at h
      · exact finish_auth_ok_some w st w' st' l h
      · split at h
        · simp [Prod.mk.injEq] at h
        · split at h
          · simp [Prod.mk.injEq] at h
          · exact ih _ _ w' st' l h

/-- Unfolding equation for `auth_loop` when challenges are outstanding:
one solve/respond iteration executes. -/
theorem auth_loop_step {W : Type} (e : Env W) (be : Bool) (f : Nat) (w : W)
    (st : HState) (h : (st.dv_c.isEmpty && st.cont_c.isEmpty) = false) :
    auth_loop e be (f + 1) w st =
      (match solve_challenges e w st with
       | (w1, st1, .error err) => (w1, st1, .error err)
       | (w1, st1, .ok (cont_resp, dv_resp)) =>
           match respond e w1 st1 cont_resp dv_resp be with
           | (w2, st2, .error err) => (w2, st2, .error err)
           | (w2, st2, .ok ()) => auth_loop e be f w2 st2) := by
  simp only [auth_loop, h, Bool.false_eq_true, if_false]

/-- Unfolding equation for `auth_loop` once `dv_c` and `cont_c` are
drained: the loop exits into the verify-and-filter phase, for any
fuel. -/
theorem auth_loop_base {W : Type} (e : Env W) (be : Bool) (f : Nat) (w : W)
    (st : HState) (h : (st.dv_c.isEmpty && st.cont_c.isEmpty) = true) :
    auth_loop e be f w st = finish_auth w st := by
  cases f with
  | zero => simp only [auth_loop, h, if_true]
  | succ f' => simp only [auth_loop, h, if_true]

/-- Evaluation step for the C1 counterexample: the first polling round
observes the authorization turn `invalid` with its challenge still
`pending` — no completion, no failure, keep polling. -/
theorem c1_round0 :
    poll_round envC1 false ["d.test"] () stChoose cuC1 [] =
      ((), stFixC1, cuC1, [], none) := rfl

/-- Evaluation step for the C1 counterexample: every later polling round
leaves the state unchanged. -/
theorem c1_round_fix :
    poll_round envC1 false ["d.test"] () stFixC1 cuC1 [] =
      ((), stFixC1, cuC1, [], none) := rfl

/-- Evaluation step for the C1 counterexample: from the fixed point the
polling loop spins until `rounds` reaches 15 and exits normally. -/
theorem c1_poll_fix :
    ∀ (f rounds : Nat), rounds ≤ 15 → 15 - rounds ≤ f →
    poll_loop envC1 false 15 f ["d.test"] rounds () stFixC1 cuC1 =
      ((), stFixC1, 15, .ok ()) := by
  intro f
  induction f with
  | zero =>
      intro rounds h1 h2
      have hr : rounds = 15 := by omega
      subst hr
      rw [poll_loop_exit envC1 false 15 0 ["d.test"] 15 () stFixC1 cuC1
        (by decide)]
  | succ f' ih =>
      intro rounds h1 h2
      by_cases hr : rounds = 15
      · subst hr
        rw [poll_loop_exit envC1 false 15 (f' + 1) ["d.test"] 15 () stFixC1
          cuC1 (by decide)]
      · have hlt : rounds < 15 := by omega
        have hcondf : ((["d.test"] : List String).isEmpty
            || !(decide (rounds < 15))) = false := by
          simp [hlt]
        rw [poll_loop_step envC1 false 15 f' ["d.test"] rounds () stFixC1 cuC1
          hcondf]
        simp only [c1_round_fix]
        have hfilter : ((["d.test"] : List String).filter
            fun d => !(List.contains ([] : List String) d)) = ["d.test"] := rfl
        rw [hfilter]
        exact ih (rounds + 1) (by omega) (by omega)

/-- Evaluation step for the C1 counterexample: the full default
`_poll_challenges` run — 15 rounds, normal return, authorization left
`invalid`. -/
theorem c1_poll_full :
    poll_challenges_default envC1 () stChoose cuC1 false =
      ((), stFixC1, 15, .ok ()) := by
  have hmap : (cuC1.map Prod.fst) = ["d.test"] := rfl
  have hcondf : ((["d.test"] : List String).isEmpty
      || !(decide (0 < 15))) = false := by decide
  rw [poll_challenges_default, poll_challenges, hmap,
    poll_loop_step envC1 false 15 14 ["d.test"] 0 () stChoose cuC1 hcondf]
  simp only [c1_round0]
  have hfilter : ((["d.test"] : List String).filter
      fun d => !(List.contains ([] : List String) d)) = ["d.test"] := rfl
  rw [hfilter]
  exact c1_poll_fix 14 1 (by omega) (by omega)

/-- Evaluation step for the C1 counterexample: `_solve_challenges` gets
one DV response. -/
theorem c1_solve :
    solve_challenges envC1 () stChoose =
      ((), stChoose, .ok ([], [some "resp"])) := rfl

/-- Evaluation step for the C1 counterexample: `_respond` answers the
challenge, polls to exhaustion without an exception, and cleans up the
active achall. -/
theorem c1_respond :
    respond envC1 () stChoose [] [some "resp"] false =
      ((), stFinalC1, .ok ()) := by
  have hsend : send_responses envC1 () stChoose.dv_c [some "resp"] [] =
      ((), cuC1, [achD]) := rfl
  have hsend2 : send_responses envC1 () stChoose.cont_c [] cuC1 =
      ((), cuC1, []) := rfl
  have hclean : cleanup_challenges_some envC1 () stFixC1 ([achD] ++ []) =
      ((), stFinalC1) := rfl
  simp only [respond, hsend, hsend2, c1_poll_full, hclean]

/-- C1 (counterexample): a `best_effort=False` call that returns normally
although its only authorization could not be retrieved.  The server
invalidates the authorization while leaving the answered challenge
`pending`; polling exhausts its 15 rounds with no per-challenge failure,
cleanup drains the outstanding lists, `verify_authzr_complete` accepts the
`invalid` (terminal) status, and the call returns the empty list instead
of raising `AuthorizationError`. -/
theorem get_authorizations_invalid_silent_return :
    get_authorizations envC1 1 () hstate0 "key" none ["d.test"] false =
      ((), stFinalC1, .ok (some []))
    ∧ arInvalidC1.body.status ≠ Status.valid := by
  refine ⟨?_, by decide⟩
  have hpre : get_authorizations envC1 1 () hstate0 "key" none ["d.test"]
      false = auth_loop envC1 false 1 () stChoose := rfl
  rw [hpre]
  have hcond1 : (stChoose.dv_c.isEmpty && stChoose.cont_c.isEmpty) = false := by
    decide
  have hcond2 : (stFinalC1.dv_c.isEmpty && stFinalC1.cont_c.isEmpty) = true := by
    decide
  rw [auth_loop_step envC1 false 0 () stChoose hcond1]
  simp only [c1_solve, c1_respond]
  rw [auth_loop_base envC1 false 0 () stFinalC1 hcond2]
  rfl

/-- C1 (amended): for every environment, fuel, state and domain list, if
`get_authorizations(domains, best_effort=False)` returns normally then
every authorization resource in the returned list has `body.status ==
valid` (the return is filtered to valid authorizations only), and every
authorization in the handler's map is terminal in the source's sense
(`valid` or `invalid`); authorizations that ended `invalid` are silently
omitted from the result rather than raising `AuthorizationError`. -/
theorem get_authorizations_returns_only_valid {W : Type} (e : Env W)
    (fuel : Nat) (w : W) (st : HState) (key : String) (uri : Option String)
    (domains : List String) (w' : W) (st' : HState) (l : List AuthzrResource)
    (h : get_authorizations e fuel w st key uri domains false =
      (w', st', .ok (some l))) :
    (∀ r ∈ l, r.body.status = Status.valid) ∧
    (∀ p ∈ st'.authzr, p.2.body.status = Status.valid ∨
      p.2.body.status = Status.invalid) := by
  simp only [get_authorizations] at h
  split at h
  · simp [Prod.mk.injEq] at h
  · exact auth_loop_ok_some e false fuel _ _ w' st' l h

/-- C1 (witness): a run against the benign environment returns the one
requested (valid) authorization, and the theorem certifies its status. -/
theorem get_authorizations_returns_only_valid_witness :
    arValid.body.status = Status.valid := by
  have h := get_authorizations_returns_only_valid envOk 1 () hstate0 "key"
    none ["a.test"] ()
    { authzr := [("a.test", arValid)], dv_c := [], cont_c := [] }
    [arValid] rfl
  exact h.1 arValid (by simp)

/-- Helper for C8: decoding a JSON string array inverts encoding. -/
theorem str_list_map_str : ∀ (l : List String),
    str_list (l.map Json.str) = some l := by
  intro l
  induction l with
  | nil => rfl
  | cons s rest ih => simp [str_list, ih]

/-- Helper for C8: the persisted registration body parses back to
itself. -/
theorem registration_from_to (r : Registration) :
    Registration.from_json (Registration.to_json r) = some r := by
  obtain ⟨k, contact, rt, ag⟩ := r
  simp [Registration.to_json, Registration.from_json, str_list_map_str]

/-- C8: `Account.save()` followed by `Account.from_existing_account` is
the identity on accounts with a valid email, a phone other than the
sentinel string `"None"`, and a registration resource — the loaded
account has the same key, email, phone and registration.  And, as the
claim's second clause states, a phone persisted as the literal string
`"None"` decodes to an absent phone. -/
theorem account_save_round_trip :
    (∀ (acc : Account) (e p : String) (r : RegistrationResource)
       (fs : String → Option AccConfig) (kfs : String → Option String),
      acc.email = some e → safe_email e = true → acc.phone = some p →
      p ≠ "None" → acc.regr = some r →
      fs acc.save.1 = some acc.save.2 →
      kfs acc.key.file = some acc.key.pem →
      Account.from_existing_account fs kfs (some e) = .ok acc)
    ∧ (∀ (path : String) (cfg : AccConfig) (kc : String) (a : Account),
        cfg.phone = "None" → from_config_fp path cfg kc = .ok a →
        a.phone = none) := by
  constructor
  · intro acc e p r fs kfs hmail hsafe hphone hpnone hregr hfs hkfs
    obtain ⟨key, email, phone, regr⟩ := acc
    obtain ⟨kf, kp⟩ := key
    obtain ⟨rb, ru, rn, rt⟩ := r
    simp only at hmail hphone hregr hfs hkfs
    subst hmail
    subst hphone
    subst hregr
    have hne_def : e ≠ "default" := by
      intro hh
      rw [hh] at hsafe
      exact absurd hsafe (by decide)
    have hne_emp : e ≠ "" := by
      intro hh
      rw [hh] at hsafe
      exact absurd hsafe (by decide)
    have hpath : get_config_filename (some e) = e := by
      simp [get_config_filename, hne_emp]
    simp only [Account.save, hpath, py_str_opt, Option.map_some'] at hfs
    simp only [Account.from_existing_account, hpath, hfs, hkfs]
    simp only [from_config_fp, registration_from_to]
    rw [if_pos hne_def, if_pos hpnone]
    simp [account_init, hsafe]
  · intro path cfg kc a hph h
    simp only [from_config_fp] at h
    split at h
    · split at h
      · exact absurd h (by simp)
      · have ha := Except.ok.inj h
        rw [← ha]
        simp [account_init, hph]
    · have ha := Except.ok.inj h
      rw [← ha]
      simp [account_init, hph]

/-- C8 (witness): the round trip at the concrete account
`(email="a@b.com", phone="1234", regr=regrW)`. -/
theorem account_save_round_trip_witness :
    Account.from_existing_account fsW kfsW (some "a@b.com") = .ok accW := by
  exact account_save_round_trip.1 accW "a@b.com" "1234" regrW fsW kfsW rfl
    (by decide) rfl (by decide) rfl rfl rfl

/-- C9: the `csr` parameter of `Client.obtain_certificate` does not
influence its behaviour or result: for any environment (which records in
`W` every request issued), fuel, handler state, account data and domain
set, two calls differing only in the passed CSR produce identical worlds
and identical `(cert_pem, key_pem, chain_pem)` results — the body never
reads the parameter and regenerates a fresh CSR from `domains`. -/
theorem obtain_certificate_ignores_csr {W : Type} (e : ClientEnv W)
    (fuel : Nat) (w : W) (ah : Bool) (hst : HState) (key : String)
    (regr : Option RegistrationResource) (domains : List String)
    (csr1 csr2 : Option String) :
    obtain_certificate e fuel w ah hst key regr domains csr1 =
      obtain_certificate e fuel w ah hst key regr domains csr2 := rfl
